import Mathlib

/-!
# pb-alloc.c : a pointer-bumping, reclaiming allocator

Shallow embedding of `src/hw2-reclaiming-allocator/pb-alloc.c`.

Modelling conventions (LP64, little-endian, as on the x86-64 Linux target of
the source):

* `size_t`, `intptr_t` and all pointers are 64-bit; every `+`/`-` written in the
  source on such values is taken modulo `2^64` (the operands are converted to
  `unsigned long` by the usual arithmetic conversions).
* memory is a total map from byte addresses to byte values; an 8-byte field at
  address `a` occupies the cells `a .. a+7` and is read little-endian.
* `sizeof(size_t) = 8`; in `struct link` the field `size` is at offset 0 and
  the field `next` at offset 8. The address of a field or of a byte inside an
  object is the object's address plus the offset, not reduced modulo `2^64`.
* arguments of type `size_t` are natural numbers; the theorems assume them
  below `2^64` where the value matters.
* `memcpy` copies from the memory as it was before the call (the C function is
  undefined on overlapping ranges).
* the value returned by `mmap` is a parameter `os` of the operations that call
  `init`; `MAP_FAILED` is `(void*)-1`.
* the `while` loop of `malloc` is driven by a fuel counter: running out of
  fuel is reported as `Err.fuel`.
-/

namespace PbAlloc

/-- Number of values of a 64-bit machine word. -/
def W64 : Nat := 2 ^ 64

/-- Width of the block header: `sizeof(size_t)`. -/
def HDR : Nat := 8

/-- `HEAP_SIZE`, that is `GB(2)`. -/
def HEAP_SIZE : Nat := ((2 * 1024) * 1024) * 1024

/-- `MAP_FAILED`, that is `(void*)-1`. -/
def MAP_FAILED : Nat := W64 - 1

/-- Byte-addressed memory. -/
abbrev Mem := Nat → Nat

/-- Little-endian read of the 8-byte field at address `a`. -/
def read64 (m : Mem) (a : Nat) : Nat :=
  m a % 256 + (m (a + 1) % 256) * 256 ^ 1 + (m (a + 2) % 256) * 256 ^ 2
    + (m (a + 3) % 256) * 256 ^ 3 + (m (a + 4) % 256) * 256 ^ 4
    + (m (a + 5) % 256) * 256 ^ 5 + (m (a + 6) % 256) * 256 ^ 6
    + (m (a + 7) % 256) * 256 ^ 7

/-- Little-endian store of the low 64 bits of `v` into the 8-byte field at `a`. -/
def write64 (m : Mem) (a v : Nat) : Mem :=
  fun x => if a ≤ x ∧ x < a + 8 then (v / 256 ^ (x - a)) % 256 else m x

/-- The effect of `bzero(p, n)`. -/
def bzero (m : Mem) (p n : Nat) : Mem :=
  fun x => if p ≤ x ∧ x < p + n then 0 else m x

/-- The effect of `memcpy(dst, src, n)`: every destination byte receives the
source byte as it was before the call. -/
def memcpy (m : Mem) (dst src n : Nat) : Mem :=
  fun x => if dst ≤ x ∧ x < dst + n then m (src + (x - dst)) else m x

/-- The globals of the allocator together with the memory. -/
structure State where
  free_ptr : Nat
  start_ptr : Nat
  end_ptr : Nat
  head : Nat
  mem : Mem

/-- The state at program start: `free_ptr = NULL`, `head = NULL`. -/
def State.initial : State :=
  { free_ptr := 0, start_ptr := 0, end_ptr := 0, head := 0, mem := fun _ => 0 }

/-- Ways in which a call does not return. -/
inductive Err where
  | exited   -- `exit(1)` after a failed `mmap`
  | aborted  -- a failed `assert`
  | fuel     -- the loop did not finish within the given fuel
  deriving DecidableEq, Repr

/-- The function `init`, with `os` the value returned by `mmap`. -/
def init (os : Nat) (s : State) : Except Err State :=
  if s.free_ptr = 0 then
    if os = MAP_FAILED then .error .exited
    else .ok { s with free_ptr := os, start_ptr := os, end_ptr := (os + HEAP_SIZE) % W64 }
  else .ok s

/-- The tail of `malloc`: carve a block from the frontier. -/
def carve (s : State) (size : Nat) : Nat × State :=
  let header_ptr := s.free_ptr
  let new_block_ptr := (s.free_ptr + HDR) % W64
  (new_block_ptr,
    { s with free_ptr := (new_block_ptr + size) % W64
             mem := write64 s.mem header_ptr size })

/-- The `while` loop of `malloc`, entered with `current_link = cur`.
`none` means the loop ended without a hit. -/
def searchLoop (size : Nat) : Nat → State → Nat → Except Err (Option (Nat × State))
  | 0, _, _ => .error .fuel
  | fuel + 1, s, cur =>
    if read64 s.mem (cur + 8) = 0 then .ok none
    else
      let previous_link := cur
      let current_link := read64 s.mem (cur + 8)
      if size ≤ read64 s.mem current_link then
        .ok (some ((current_link + HDR) % W64,
          { s with mem := write64 s.mem (previous_link + 8) (read64 s.mem (current_link + 8)) }))
      else searchLoop size fuel s current_link

/-- The function `malloc`. -/
def malloc (fuel os : Nat) (s0 : State) (size : Nat) : Except Err (Nat × State) :=
  match init os s0 with
  | .error e => .error e
  | .ok s =>
    if s.head ≠ 0 then
      let current_link := s.head
      if size ≤ read64 s.mem current_link then
        .ok ((current_link + HDR) % W64, { s with head := read64 s.mem (current_link + 8) })
      else
        match searchLoop size fuel s current_link with
        | .error e => .error e
        | .ok (some r) => .ok r
        | .ok none => .ok (carve s size)
    else .ok (carve s size)

/-- The function `free`. -/
def free (s : State) (ptr : Nat) : State :=
  if ptr = 0 then s
  else
    let header_addr := (ptr + W64 - HDR) % W64
    { s with mem := write64 s.mem (header_addr + 8) s.head, head := header_addr }

/-- The function `calloc`. -/
def calloc (fuel os : Nat) (s : State) (nmemb size : Nat) : Except Err (Nat × State) :=
  let block_size := (nmemb * size) % W64
  match malloc fuel os s block_size with
  | .error e => .error e
  | .ok (new_block_ptr, s1) =>
    if new_block_ptr = 0 then .error .aborted
    else .ok (new_block_ptr, { s1 with mem := bzero s1.mem new_block_ptr block_size })

/-- The function `realloc`. -/
def realloc (fuel os : Nat) (s : State) (ptr size : Nat) : Except Err (Nat × State) :=
  if ptr = 0 then malloc fuel os s size
  else if size = 0 then .ok (0, free s ptr)
  else
    let header_ptr := (ptr + W64 - HDR) % W64
    let block_size := read64 s.mem header_ptr
    if size ≤ block_size then .ok (ptr, s)
    else
      match malloc fuel os s size with
      | .error e => .error e
      | .ok (new_block_ptr, s1) =>
        if new_block_ptr = 0 then .error .aborted
        else
          .ok (new_block_ptr,
            free { s1 with mem := memcpy s1.mem new_block_ptr ptr block_size } ptr)

/-- The pointer a call returned (`none` when it did not return). -/
def retPtr (r : Except Err (Nat × State)) : Option Nat :=
  match r with
  | .ok (p, _) => some p
  | .error _ => none

/-- The state a call left behind; the given state when it did not return. -/
def retState (dflt : State) (r : Except Err (Nat × State)) : State :=
  match r with
  | .ok (_, s) => s
  | .error _ => dflt

/-- `FreeList m h ns`: following `next` links in memory `m` from `h` visits
exactly the nodes `ns` and then reaches `NULL`. -/
def FreeList (m : Mem) : Nat → List Nat → Prop
  | h, [] => h = 0
  | h, n :: ns => h = n ∧ n ≠ 0 ∧ FreeList m (read64 m (n + 8)) ns

/-- The last element of the non-empty list `a :: l`. -/
def lastOf (a : Nat) : List Nat → Nat
  | [] => a
  | b :: t => lastOf b t

/-- The state `malloc` leaves when it takes the node `n` whose predecessors on
the free list are `pre`: the head is patched when there is none, the link of
the last predecessor otherwise. -/
def unlinked (s : State) (n : Nat) : List Nat → State
  | [] => { s with head := read64 s.mem (n + 8) }
  | a :: t => { s with mem := write64 s.mem (lastOf a t + 8) (read64 s.mem (n + 8)) }

/-- The nodes occupy pairwise disjoint 16-byte cells (`struct link` objects
that do not overlap). -/
def Separated (ns : List Nat) : Prop :=
  ns.Pairwise (fun a b => a + 16 ≤ b ∨ b + 16 ≤ a)

/-- Decision procedure for `Separated`. -/
instance Separated.dec (ns : List Nat) : Decidable (Separated ns) :=
  inferInstanceAs (Decidable (ns.Pairwise (fun a b => a + 16 ≤ b ∨ b + 16 ≤ a)))

/-- The address `mmap` returns in the worked scenarios. -/
def BASE : Nat := 2 ^ 40

/-- Decision procedure for `FreeList`. -/
instance FreeList.dec (m : Mem) : ∀ (h : Nat) (ns : List Nat), Decidable (FreeList m h ns)
  | h, [] => inferInstanceAs (Decidable (h = 0))
  | h, n :: ns =>
    have := FreeList.dec m (read64 m (n + 8)) ns
    inferInstanceAs (Decidable (h = n ∧ n ≠ 0 ∧ FreeList m (read64 m (n + 8)) ns))

/-- Memory holding one free-list node at `a` with the given fields. -/
def putNode (m : Mem) (a size next : Nat) : Mem :=
  write64 (write64 m a size) (a + 8) next

/-- A sample state: an initialised allocator whose free list is
`100 (size 10) → 200 (size 50) → 300 (size 30)`. -/
def sample3 : State :=
  { free_ptr := 4096, start_ptr := 64, end_ptr := 64 + HEAP_SIZE, head := 100,
    mem := putNode (putNode (putNode (fun _ => 0) 100 10 200) 200 50 300) 300 30 0 }

/-- Scenario: `malloc(4)` on the fresh allocator, then `free` of that block.
The free list is the single node `BASE` (size 4); the frontier cursor is
`BASE + 12`, inside that node's link field `[BASE + 8, BASE + 16)`. -/
def smallFreed : State :=
  free (retState State.initial (malloc 0 BASE State.initial 4)) (BASE + 8)

/-- Scenario: `A = malloc(4)`, `B = malloc(16)`, `free(B)`, `free(A)` on the
fresh allocator. The free list is `BASE (A) → BASE + 12 (B)`; the link field of
`A`, `[BASE + 8, BASE + 16)`, overlaps the size field of `B`,
`[BASE + 12, BASE + 20)`. -/
def twoFreed : State :=
  let a := malloc 0 BASE State.initial 4
  let b := malloc 0 BASE (retState State.initial a) 16
  free (free (retState State.initial b) (BASE + 20)) (BASE + 8)

/-- A sample state with a live block at payload address 1008 recording
capacity 50, an empty free list and the frontier cursor at 4096. -/
def sampleLive : State :=
  { free_ptr := 4096, start_ptr := 64, end_ptr := 64 + HEAP_SIZE, head := 0,
    mem := write64 (fun _ => 0) 1000 50 }

/-- Scenario: `A = malloc(4)`, `F = malloc(8)`, `P = malloc(32)` on the fresh
allocator; the three blocks are live at payload addresses `BASE + 8`,
`BASE + 20` and `BASE + 36`. -/
def threeLive : State :=
  let a := malloc 0 BASE State.initial 4
  let f := malloc 0 BASE (retState State.initial a) 8
  retState State.initial (malloc 0 BASE (retState State.initial f) 32)

/-- Scenario: `threeLive` followed by `free(F)`, `free(A)`. `P = BASE + 36`
stays live with its header at `BASE + 28` recording the 32 bytes it was
created with; the free list is `A → F`. -/
def liveBehindFreed : State :=
  free (free threeLive (BASE + 20)) (BASE + 8)

/-- A sample state: live block at payload 1008 recording capacity 50 whose
first payload byte is 7, a free list `2000 (size 20) → 3000 (size 80)`, and
the frontier cursor at 4096. -/
def sampleHeap : State :=
  { free_ptr := 4096, start_ptr := 64, end_ptr := 64 + HEAP_SIZE, head := 2000,
    mem := putNode (putNode (write64 (write64 (fun _ => 0) 1000 50) 1008 7) 2000 20 3000)
      3000 80 0 }

/-- Scenario: `A = malloc(4)`, `B = malloc(16)`, `C = malloc(16)`,
`D = malloc(16)`, then `free(D)`, `free(C)`, `free(B)`, `free(A)` on the fresh
allocator. The free list is `A → B → C → D` with nodes `BASE`, `BASE + 12`,
`BASE + 36`, `BASE + 60`; the header of `B` (created with 16) is overlapped by
the link field of `A` and records 256. -/
def fourFreed : State :=
  let a := malloc 0 BASE State.initial 4
  let b := malloc 0 BASE (retState State.initial a) 16
  let c := malloc 0 BASE (retState State.initial b) 16
  let d := malloc 0 BASE (retState State.initial c) 16
  free (free (free (free (retState State.initial d) (BASE + 68)) (BASE + 44)) (BASE + 20))
    (BASE + 8)

/-- Scenario: `malloc(4)` then `malloc(10)` on the fresh allocator; both
blocks are live, at payload addresses `BASE + 8` and `BASE + 20`. -/
def twoLive : State :=
  let a := malloc 0 BASE State.initial 4
  retState State.initial (malloc 0 BASE (retState State.initial a) 10)

/-- Scenario: `P1 = malloc(4)`, `P2 = malloc(8)`, `P3 = malloc(8)`, then
`free(P2)`, `free(P1)` on the fresh allocator; `P3 = BASE + 36` stays live. -/
def oneLiveTwoFreed : State :=
  let a := malloc 0 BASE State.initial 4
  let b := malloc 0 BASE (retState State.initial a) 8
  let c := malloc 0 BASE (retState State.initial b) 8
  free (free (retState State.initial c) (BASE + 20)) (BASE + 8)

/-- Scenario: `A = malloc(4)`, `B = malloc(16)` on the fresh allocator; both
blocks are live, at payload addresses `BASE + 8` and `BASE + 20`, and their
headers record 4 and 16. -/
def smallThenBig : State :=
  let a := malloc 0 BASE State.initial 4
  retState State.initial (malloc 0 BASE (retState State.initial a) 16)

/-- Scenario: `malloc(50)` on the fresh allocator, then `free` of that block. -/
def freed50 : State :=
  free (retState State.initial (malloc 0 BASE State.initial 50)) (BASE + 8)

/-- Scenario: `A = malloc(50)`, `B = malloc(50)`, `free(A)`, `free(B)` on the
fresh allocator; the free list is `B → A`, so the first payload bytes of `B`
hold the address of the node of `A`. -/
def twoFreed50 : State :=
  let a := malloc 0 BASE State.initial 50
  let b := malloc 0 BASE (retState State.initial a) 50
  free (free (retState State.initial b) (BASE + 8)) (BASE + 66)

/-- One call of the public interface. -/
inductive Call where
  | malloc (size : Nat)
  | calloc (nmemb size : Nat)
  | realloc (ptr size : Nat)
  | free (ptr : Nat)

/-- The state after one call (the returned pointer is dropped). -/
def step (fuel os : Nat) (s : State) : Call → Except Err State
  | .malloc size =>
    match malloc fuel os s size with
    | .error e => .error e
    | .ok (_, s1) => .ok s1
  | .calloc nmemb size =>
    match calloc fuel os s nmemb size with
    | .error e => .error e
    | .ok (_, s1) => .ok s1
  | .realloc ptr size =>
    match realloc fuel os s ptr size with
    | .error e => .error e
    | .ok (_, s1) => .ok s1
  | .free ptr => .ok (free s ptr)

/-- The state after a sequence of calls. -/
def run (fuel os : Nat) : State → List Call → Except Err State
  | s, [] => .ok s
  | s, c :: cs =>
    match step fuel os s c with
    | .error e => .error e
    | .ok s1 => run fuel os s1 cs

/-- The bytes a call can take from the frontier: the request plus its header. -/
def demand : Call → Nat
  | .malloc size => 8 + size
  | .calloc nmemb size => 8 + (nmemb * size) % W64
  | .realloc _ size => 8 + size
  | .free _ => 0

/-- The bytes a sequence of calls can take from the frontier. -/
def totalDemand : List Call → Nat
  | [] => 0
  | c :: cs => demand c + totalDemand cs

/-- The freshly initialised state: what `init` makes of the state at program
start when `mmap` returns `os`. -/
def State.fresh (os : Nat) : State :=
  { free_ptr := os, start_ptr := os, end_ptr := (os + HEAP_SIZE) % W64, head := 0,
    mem := fun _ => 0 }

/-- The cursor is inside the region with `k` bytes to spare, in an initialised
state whose region is `HEAP_SIZE` bytes long and ends inside the address
space. -/
def Room (s : State) (k : Nat) : Prop :=
  0 < s.start_ptr ∧ s.start_ptr ≤ s.free_ptr ∧ s.free_ptr + k ≤ s.end_ptr ∧
    s.end_ptr = s.start_ptr + HEAP_SIZE ∧ s.end_ptr < W64

/-- Memory obtained from `m` by the given 8-byte stores, most recent first. -/
def writes (m : Mem) : List (Nat × Nat) → Mem
  | [] => m
  | w :: l => write64 (writes m l) w.1 w.2

/-- The state with region start `os`, the given cursor and head, and memory
all zero except for the given stores. -/
def heapAt (os cursor head : Nat) (ws : List (Nat × Nat)) : State :=
  { free_ptr := cursor, start_ptr := os, end_ptr := (os + HEAP_SIZE) % W64, head := head,
    mem := writes (fun _ => 0) ws }

/-- The pointer variables of `main`, and the frontier cursor as it is before
`extra_new_block = malloc(23)`, after it, and after
`really_new_block = malloc(4)`. -/
structure MainVars where
  first_block : Nat
  new_first_block : Nat
  second_block : Nat
  third_block : Nat
  fourth_block : Nat
  new_block : Nat
  newnew_block : Nat
  extra_new_block : Nat
  really_new_block : Nat
  big_new_block : Nat
  the_newest_block : Nat
  cursor_before_extra : Nat
  cursor_after_extra : Nat
  cursor_after_really : Nat

/-- The function `main`, run from the state at program start. -/
def main (fuel os : Nat) : Except Err MainVars := do
  let (first_block, s) ← malloc fuel os State.initial 45
  let s := free s first_block
  let (new_first_block, s) ← malloc fuel os s 30
  let (second_block, s) ← malloc fuel os s 10
  let (third_block, s) ← malloc fuel os s 20
  let (fourth_block, s) ← malloc fuel os s 75
  let s := free s third_block
  let (new_block, s) ← malloc fuel os s 12
  let (newnew_block, s) ← malloc fuel os s 5
  let s := free s new_first_block
  let s := free s second_block
  let s := free s fourth_block
  let s := free s new_block
  let s := free s newnew_block
  let cursor_before_extra := s.free_ptr
  let (extra_new_block, s) ← malloc fuel os s 23
  let cursor_after_extra := s.free_ptr
  let (really_new_block, s) ← malloc fuel os s 4
  let cursor_after_really := s.free_ptr
  let (big_new_block, s) ← malloc fuel os s 120
  let (the_newest_block, _) ← malloc fuel os s 2
  pure { first_block, new_first_block, second_block, third_block, fourth_block, new_block,
         newnew_block, extra_new_block, really_new_block, big_new_block, the_newest_block,
         cursor_before_extra, cursor_after_extra, cursor_after_really }

/-! ## Memory lemmas -/

theorem read64_lt (m : Mem) (a : Nat) : read64 m a < W64 := by
  unfold read64 W64
  omega

theorem read64_write64_same (m : Mem) (a v : Nat) :
    read64 (write64 m a v) a = v % W64 := by
  unfold read64 write64 W64
  simp
  omega

theorem write64_outside (m : Mem) (a v x : Nat) (h : x < a ∨ a + 8 ≤ x) :
    write64 m a v x = m x := by
  unfold write64
  rw [if_neg]
  omega

theorem read64_write64_disj (m : Mem) (a v b : Nat) (h : b + 8 ≤ a ∨ a + 8 ≤ b) :
    read64 (write64 m a v) b = read64 m b := by
  unfold read64
  rw [write64_outside m a v b (by omega), write64_outside m a v (b + 1) (by omega),
    write64_outside m a v (b + 2) (by omega), write64_outside m a v (b + 3) (by omega),
    write64_outside m a v (b + 4) (by omega), write64_outside m a v (b + 5) (by omega),
    write64_outside m a v (b + 6) (by omega), write64_outside m a v (b + 7) (by omega)]


/-! ## The search loop -/

theorem init_ok (os : Nat) (s : State) (h : s.free_ptr ≠ 0 ∨ os ≠ MAP_FAILED) :
    ∃ s1, init os s = .ok s1 ∧ s1.mem = s.mem ∧ s1.head = s.head ∧
      (s.free_ptr ≠ 0 → s1 = s) := by
  unfold init
  by_cases hf : s.free_ptr = 0
  · have hos : os ≠ MAP_FAILED := by
      rcases h with h | h
      · exact absurd hf h
      · exact h
    rw [if_pos hf, if_neg hos]
    exact ⟨_, rfl, rfl, rfl, fun h1 => absurd hf h1⟩
  · rw [if_neg hf]
    exact ⟨s, rfl, rfl, rfl, fun _ => rfl⟩

theorem searchLoop_hit (size : Nat) (s : State) (n : Nat) (post : List Nat) :
    ∀ (pre : List Nat) (cur fuel : Nat),
      FreeList s.mem (read64 s.mem (cur + 8)) (pre ++ n :: post) →
      (∀ x ∈ pre, read64 s.mem x < size) →
      size ≤ read64 s.mem n →
      pre.length + 1 ≤ fuel →
      searchLoop size fuel s cur =
        .ok (some ((n + HDR) % W64,
          { s with mem := write64 s.mem (lastOf cur pre + 8) (read64 s.mem (n + 8)) })) := by
  intro pre
  induction pre with
  | nil =>
    intro cur fuel hch _ hfit hfuel
    obtain ⟨k, rfl⟩ : ∃ k, fuel = k + 1 := ⟨fuel - 1, by omega⟩
    simp only [List.nil_append, FreeList] at hch
    obtain ⟨hn, hn0, _⟩ := hch
    simp only [searchLoop, hn, if_neg hn0, if_pos hfit, lastOf]
  | cons a pre ih =>
    intro cur fuel hch hpre hfit hfuel
    obtain ⟨k, rfl⟩ : ∃ k, fuel = k + 1 := ⟨fuel - 1, by omega⟩
    simp only [List.cons_append, FreeList] at hch
    obtain ⟨ha, ha0, hrest⟩ := hch
    have hlt : ¬ size ≤ read64 s.mem a := by
      have := hpre a (List.mem_cons_self _ _)
      omega
    have hk : pre.length + 1 ≤ k := by
      simp only [List.length_cons] at hfuel
      omega
    have := ih a k hrest (fun x hx => hpre x (List.mem_cons_of_mem _ hx)) hfit hk
    simp only [searchLoop, ha, if_neg ha0, if_neg hlt, this, lastOf]

theorem searchLoop_miss (size : Nat) (s : State) :
    ∀ (ns : List Nat) (cur fuel : Nat),
      FreeList s.mem (read64 s.mem (cur + 8)) ns →
      (∀ x ∈ ns, read64 s.mem x < size) →
      ns.length + 1 ≤ fuel →
      searchLoop size fuel s cur = .ok none := by
  intro ns
  induction ns with
  | nil =>
    intro cur fuel hch _ hfuel
    obtain ⟨k, rfl⟩ : ∃ k, fuel = k + 1 := ⟨fuel - 1, by omega⟩
    simp only [FreeList] at hch
    simp only [searchLoop, hch, if_pos]
  | cons a ns ih =>
    intro cur fuel hch hall hfuel
    obtain ⟨k, rfl⟩ : ∃ k, fuel = k + 1 := ⟨fuel - 1, by omega⟩
    simp only [FreeList] at hch
    obtain ⟨ha, ha0, hrest⟩ := hch
    have hlt : ¬ size ≤ read64 s.mem a := by
      have := hall a (List.mem_cons_self _ _)
      omega
    have hk : ns.length + 1 ≤ k := by
      simp only [List.length_cons] at hfuel
      omega
    have := ih a k hrest (fun x hx => hall x (List.mem_cons_of_mem _ hx)) hk
    simp only [searchLoop, ha, if_neg ha0, if_neg hlt, this]

/-- What `malloc` does on a hit, in full: the first node `n` whose recorded
size is at least `size` is returned; the head is patched when `n` is the first
node, the predecessor's link otherwise. -/
theorem malloc_hit (fuel os : Nat) (s s1 : State) (size n : Nat) (pre post : List Nat)
    (hinit : init os s = .ok s1) (hmem : s1.mem = s.mem) (hhead : s1.head = s.head)
    (hchain : FreeList s.mem s.head (pre ++ n :: post))
    (hpre : ∀ x ∈ pre, read64 s.mem x < size)
    (hfit : size ≤ read64 s.mem n)
    (hfuel : pre.length ≤ fuel) :
    malloc fuel os s size = .ok ((n + HDR) % W64, unlinked s1 n pre) := by
  unfold malloc
  rw [hinit]
  cases pre with
  | nil =>
    simp only [List.nil_append, FreeList] at hchain
    obtain ⟨hh, hn0, _⟩ := hchain
    simp only [hhead, hh, hmem, ne_eq, hn0, not_false_eq_true, if_pos, hfit, unlinked]
  | cons a t =>
    simp only [List.cons_append, FreeList] at hchain
    obtain ⟨hh, ha0, hrest⟩ := hchain
    have hlt : ¬ size ≤ read64 s.mem a := by
      have := hpre a (List.mem_cons_self _ _)
      omega
    have hrest1 : FreeList s1.mem (read64 s1.mem (a + 8)) (t ++ n :: post) := by
      rw [hmem]; exact hrest
    have hpre1 : ∀ x ∈ t, read64 s1.mem x < size := by
      rw [hmem]; exact fun x hx => hpre x (List.mem_cons_of_mem _ hx)
    have hfit1 : size ≤ read64 s1.mem n := by rw [hmem]; exact hfit
    have hk : t.length + 1 ≤ fuel := by
      simpa using hfuel
    have := searchLoop_hit size s1 n post t a fuel hrest1 hpre1 hfit1 hk
    simp only [hhead, hh, hmem, ne_eq, ha0, not_false_eq_true, if_pos, hlt, if_neg, this,
      unlinked]

/-! ## Claims -/

/-- C1 (first-fit selection): when the free list is a finite chain
`pre ++ n :: post` from the head, every node of `pre` records a size below
`size` and `n` records a size of at least `size`, then `malloc size` returns
the address of `n` plus the 8-byte header width (a 64-bit address; literally
`n + 8` when that does not wrap), whatever sizes the later nodes `post` record.
The region reservation is assumed not to fail, and the fuel covers the nodes
walked. -/
theorem malloc_first_fit (fuel os : Nat) (s : State) (size n : Nat) (pre post : List Nat)
    (hinit : s.free_ptr ≠ 0 ∨ os ≠ MAP_FAILED)
    (hchain : FreeList s.mem s.head (pre ++ n :: post))
    (hpre : ∀ x ∈ pre, read64 s.mem x < size)
    (hfit : size ≤ read64 s.mem n)
    (hfuel : pre.length ≤ fuel) :
    retPtr (malloc fuel os s size) = some ((n + 8) % W64) ∧
      (n + 8 < W64 → retPtr (malloc fuel os s size) = some (n + 8)) := by
  obtain ⟨s1, h1, hmem, hhead, _⟩ := init_ok os s hinit
  have h := malloc_hit fuel os s s1 size n pre post h1 hmem hhead hchain hpre hfit hfuel
  have hp : retPtr (malloc fuel os s size) = some ((n + 8) % W64) := by
    rw [h]; rfl
  refine ⟨hp, fun hlt => ?_⟩
  rw [hp, Nat.mod_eq_of_lt hlt]

/-- Witness for C1: on `100 (10) → 200 (50) → 300 (30)` a request of 20 bytes
takes node 200 although node 300 fits more tightly. -/
theorem malloc_first_fit_witness :
    FreeList sample3.mem sample3.head ([100] ++ 200 :: [300]) ∧
      read64 sample3.mem 300 = 30 ∧
      retPtr (malloc 1 0 sample3 20) = some 208 :=
  ⟨by decide, by decide,
    (malloc_first_fit 1 0 sample3 20 200 [100] [300] (by decide) (by decide) (by decide)
      (by decide) (by decide)).2 (by decide)⟩

/-! ## Free-list lemmas -/

theorem FreeList_congr (m m1 : Mem) :
    ∀ (ns : List Nat) (h : Nat),
      (∀ x ∈ ns, read64 m1 (x + 8) = read64 m (x + 8)) →
      FreeList m h ns → FreeList m1 h ns := by
  intro ns
  induction ns with
  | nil => intro h _ hc; exact hc
  | cons a t ih =>
    intro h hl hc
    simp only [FreeList] at hc ⊢
    obtain ⟨h1, h2, h3⟩ := hc
    refine ⟨h1, h2, ?_⟩
    rw [hl a (List.mem_cons_self _ _)]
    exact ih _ (fun x hx => hl x (List.mem_cons_of_mem _ hx)) h3

theorem lastOf_mem (a : Nat) (t : List Nat) : lastOf a t ∈ a :: t := by
  induction t generalizing a with
  | nil => simp [lastOf]
  | cons b t ih =>
    simp only [lastOf]
    exact List.mem_cons_of_mem _ (ih b)

theorem Separated_cases (ns : List Nat) (hs : Separated ns) (x y : Nat)
    (hx : x ∈ ns) (hy : y ∈ ns) : x = y ∨ x + 16 ≤ y ∨ y + 16 ≤ x := by
  by_cases hxy : x = y
  · exact Or.inl hxy
  · right
    have hsym : Symmetric (fun a b : Nat => a + 16 ≤ b ∨ b + 16 ≤ a) := by
      intro a b hab
      exact hab.symm
    exact List.Pairwise.forall hsym hs hx hy hxy

/-- Patching the link of the last node of `a :: t` to skip `n` yields the
chain without `n`. -/
theorem unlink_chain (m : Mem) (n : Nat) (post : List Nat) :
    ∀ (t : List Nat) (a h : Nat),
      FreeList m h ((a :: t) ++ n :: post) →
      Separated ((a :: t) ++ n :: post) →
      FreeList (write64 m (lastOf a t + 8) (read64 m (n + 8))) h ((a :: t) ++ post) := by
  intro t
  induction t with
  | nil =>
    intro a h hc hs
    simp only [List.cons_append, List.nil_append, FreeList, lastOf] at hc ⊢
    obtain ⟨h1, h2, h3, _, h5⟩ := hc
    refine ⟨h1, h2, ?_⟩
    rw [read64_write64_same, Nat.mod_eq_of_lt (read64_lt _ _)]
    refine FreeList_congr m _ post _ (fun x hx => ?_) h5
    have hsa : ∀ y ∈ n :: post, a + 16 ≤ y ∨ y + 16 ≤ a := by
      unfold Separated at hs
      simp only [List.cons_append, List.nil_append] at hs
      exact (List.pairwise_cons.mp hs).1
    have := hsa x (List.mem_cons_of_mem _ hx)
    exact read64_write64_disj _ _ _ _ (by omega)
  | cons b t ih =>
    intro a h hc hs
    have hs1 : Separated ((b :: t) ++ n :: post) := by
      unfold Separated at hs ⊢
      simp only [List.cons_append] at hs ⊢
      exact (List.pairwise_cons.mp hs).2
    have hsa : ∀ y ∈ (b :: t) ++ n :: post, a + 16 ≤ y ∨ y + 16 ≤ a := by
      unfold Separated at hs
      simp only [List.cons_append] at hs ⊢
      exact (List.pairwise_cons.mp hs).1
    simp only [List.cons_append, FreeList] at hc
    obtain ⟨h1, h2, h3⟩ := hc
    have hrec := ih b (read64 m (a + 8)) (by simpa only [List.cons_append, FreeList] using h3) hs1
    have hl : lastOf b t ∈ (b :: t) ++ n :: post :=
      List.mem_append_left _ (lastOf_mem b t)
    have hd := hsa _ hl
    show FreeList _ h (a :: ((b :: t) ++ post))
    simp only [FreeList, lastOf]
    refine ⟨h1, h2, ?_⟩
    rw [read64_write64_disj _ _ _ _ (by omega)]
    simpa only [List.cons_append, FreeList] using hrec

/-- Either no node fits, or the chain splits at the first node that fits. -/
theorem firstFit_split (m : Mem) (size : Nat) :
    ∀ ns : List Nat, (∀ x ∈ ns, read64 m x < size) ∨
      ∃ pre n post, ns = pre ++ n :: post ∧ (∀ x ∈ pre, read64 m x < size) ∧
        size ≤ read64 m n := by
  intro ns
  induction ns with
  | nil => left; intro x hx; cases hx
  | cons a t ih =>
    by_cases ha : size ≤ read64 m a
    · right
      exact ⟨[], a, t, rfl, fun x hx => (by cases hx), ha⟩
    · rcases ih with hall | ⟨pre, n, post, rfl, hpre, hfit⟩
      · left
        intro x hx
        rcases List.mem_cons.mp hx with rfl | hx
        · omega
        · exact hall x hx
      · right
        refine ⟨a :: pre, n, post, rfl, ?_, hfit⟩
        intro x hx
        rcases List.mem_cons.mp hx with rfl | hx
        · omega
        · exact hpre x hx

/-- What `malloc` does on a miss, in full. -/
theorem malloc_miss (fuel os : Nat) (s s1 : State) (size : Nat) (ns : List Nat)
    (hinit : init os s = .ok s1) (hmem : s1.mem = s.mem) (hhead : s1.head = s.head)
    (hchain : FreeList s.mem s.head ns)
    (hmiss : ∀ x ∈ ns, read64 s.mem x < size)
    (hfuel : ns.length ≤ fuel) :
    malloc fuel os s size = .ok (carve s1 size) := by
  unfold malloc
  rw [hinit]
  cases ns with
  | nil =>
    simp only [FreeList] at hchain
    simp only [hhead, hchain, ne_eq, not_true_eq_false, if_false]
  | cons a t =>
    simp only [FreeList] at hchain
    obtain ⟨hh, ha0, hrest⟩ := hchain
    have hlt : ¬ size ≤ read64 s.mem a := by
      have := hmiss a (List.mem_cons_self _ _)
      omega
    have hrest1 : FreeList s1.mem (read64 s1.mem (a + 8)) t := by
      rw [hmem]; exact hrest
    have hmiss1 : ∀ x ∈ t, read64 s1.mem x < size := by
      rw [hmem]; exact fun x hx => hmiss x (List.mem_cons_of_mem _ hx)
    have hk : t.length + 1 ≤ fuel := by
      simpa using hfuel
    have := searchLoop_miss size s1 t a fuel hrest1 hmiss1 hk
    simp only [hhead, hh, hmem, ne_eq, ha0, not_false_eq_true, if_pos, hlt, if_neg, this]

/-- C2, the code at the failing input: after `malloc(4)` and `free` of that
block the state is initialised, its free list is the single node `BASE`
recording size 4, so a request of 10 bytes misses and is served from the
frontier at `BASE + 12`; yet the link of node `BASE` is changed by the call
(from `NULL` to `10 * 2^32`), because the new header `[BASE + 12, BASE + 20)`
overlaps the link field `[BASE + 8, BASE + 16)` of the 4-byte block, whereas
frontier allocation is to leave every link on the list unchanged. -/
theorem frontier_header_changes_link :
    smallFreed.free_ptr ≠ 0 ∧
      FreeList smallFreed.mem smallFreed.head [BASE] ∧
      read64 smallFreed.mem BASE < 10 ∧
      retPtr (malloc 1 BASE smallFreed 10) = some (smallFreed.free_ptr + 8) ∧
      read64 smallFreed.mem (BASE + 8) = 0 ∧
      read64 (retState smallFreed (malloc 1 BASE smallFreed 10)).mem (BASE + 8) = 10 * 2 ^ 32 := by
  decide

/-- Frontier allocation on a miss, away from any link field: in an initialised
state whose free list is a finite chain `ns` none of whose nodes records a size of at least
`size`, and none of whose link fields `[x + 8, x + 16)` overlaps the header
cell `[cursor, cursor + 8)`, `malloc size` returns `cursor + 8`, the header at
the old cursor holds `size`, the cursor becomes `cursor + 8 + size` (both sums
as 64-bit addresses), and the head and every link of the list are unchanged. -/
theorem malloc_frontier (fuel os : Nat) (s : State) (size : Nat) (ns : List Nat)
    (hinit : s.free_ptr ≠ 0)
    (hsize : size < W64)
    (hchain : FreeList s.mem s.head ns)
    (hmiss : ∀ x ∈ ns, read64 s.mem x < size)
    (hsep : ∀ x ∈ ns, x + 16 ≤ s.free_ptr ∨ s.free_ptr ≤ x)
    (hfuel : ns.length ≤ fuel) :
    ∃ s1, malloc fuel os s size = .ok ((s.free_ptr + 8) % W64, s1) ∧
      read64 s1.mem s.free_ptr = size ∧
      s1.free_ptr = (s.free_ptr + 8 + size) % W64 ∧
      s1.head = s.head ∧
      (∀ x ∈ ns, read64 s1.mem (x + 8) = read64 s.mem (x + 8)) ∧
      FreeList s1.mem s1.head ns := by
  obtain ⟨s0, h0, hmem, hhead, hsame⟩ := init_ok os s (Or.inl hinit)
  have hs0 : s0 = s := hsame hinit
  subst hs0
  have h := malloc_miss fuel os s0 s0 size ns h0 rfl rfl hchain hmiss hfuel
  have hlinks : ∀ x ∈ ns, read64 (write64 s0.mem s0.free_ptr size) (x + 8)
      = read64 s0.mem (x + 8) := by
    intro x hx
    have := hsep x hx
    exact read64_write64_disj _ _ _ _ (by omega)
  refine ⟨(carve s0 size).2, h, ?_, ?_, rfl, hlinks, ?_⟩
  · show read64 (write64 s0.mem s0.free_ptr size) s0.free_ptr = size
    rw [read64_write64_same, Nat.mod_eq_of_lt hsize]
  · show ((s0.free_ptr + HDR) % W64 + size) % W64 = (s0.free_ptr + 8 + size) % W64
    simp only [HDR, W64]
    omega
  · exact FreeList_congr s0.mem _ ns _ hlinks hchain

/-- Example for `malloc_frontier`: on the sample list (sizes 10, 50, 30, all
nodes far below the cursor 4096) a request of 60 bytes is carved at 4096. -/
theorem malloc_frontier_witness :
    FreeList sample3.mem sample3.head [100, 200, 300] ∧
      ∃ s1, malloc 3 0 sample3 60 = .ok ((sample3.free_ptr + 8) % W64, s1) ∧
        read64 s1.mem sample3.free_ptr = 60 ∧
        s1.free_ptr = (sample3.free_ptr + 8 + 60) % W64 ∧
        s1.head = sample3.head ∧
        (∀ x ∈ [100, 200, 300], read64 s1.mem (x + 8) = read64 sample3.mem (x + 8)) ∧
        FreeList s1.mem s1.head [100, 200, 300] :=
  ⟨by decide,
    malloc_frontier 3 0 sample3 60 [100, 200, 300] (by decide) (by decide) (by decide)
      (by decide) (by decide) (by decide)⟩

/-- C3 (release pushes at the head): for a non-null pointer `p`, after
`free p` the head is the 64-bit address `p - 8` (literally `p - 8` for
`p ≥ 8`), the link field of that node holds the previous head, the size field
at `p - 8` holds the same value as before, and the frontier cursor is
unchanged. -/
theorem free_pushes_head (s : State) (p : Nat)
    (hp0 : p ≠ 0) (hp : p < W64) (hhead : s.head < W64) :
    (free s p).head = (p + W64 - 8) % W64 ∧
      (8 ≤ p → (free s p).head = p - 8) ∧
      read64 (free s p).mem ((free s p).head + 8) = s.head ∧
      read64 (free s p).mem (free s p).head = read64 s.mem (free s p).head ∧
      (free s p).free_ptr = s.free_ptr := by
  have hf : free s p = { s with mem := write64 s.mem ((p + W64 - HDR) % W64 + 8) s.head,
                                head := (p + W64 - HDR) % W64 } := by
    unfold free
    rw [if_neg hp0]
  rw [hf]
  refine ⟨rfl, ?_, ?_, ?_, rfl⟩
  · intro h8
    show (p + W64 - HDR) % W64 = p - 8
    simp only [HDR, W64] at hp ⊢
    omega
  · show read64 (write64 s.mem ((p + W64 - HDR) % W64 + 8) s.head) ((p + W64 - HDR) % W64 + 8)
      = s.head
    rw [read64_write64_same, Nat.mod_eq_of_lt hhead]
  · show read64 (write64 s.mem ((p + W64 - HDR) % W64 + 8) s.head) ((p + W64 - HDR) % W64)
      = read64 s.mem ((p + W64 - HDR) % W64)
    exact read64_write64_disj _ _ _ _ (by omega)

/-- Witness for C3: releasing the live block at 1008 of the sample state. -/
theorem free_pushes_head_witness :
    (free sampleLive 1008).head = 1000 ∧
      read64 (free sampleLive 1008).mem 1008 = sampleLive.head ∧
      read64 (free sampleLive 1008).mem 1000 = 50 := by
  have h := free_pushes_head sampleLive 1008 (by decide) (by decide) (by decide)
  have h1 : (free sampleLive 1008).head = 1000 := h.2.1 (by decide)
  have h3 := h.2.2.1
  have h4 := h.2.2.2.1
  rw [h1] at h3 h4
  exact ⟨h1, h3, h4.trans (by decide)⟩

/-- C4 (reuse without splitting): for a payload pointer `p` (with a non-null
header address `p - 8`) whose header records capacity `c`, in an initialised
state, and every `size ≤ c`: `free p` followed by `malloc size` returns `p`
itself, the header at `p - 8` still records `c`, and the free-list head and the
frontier cursor are as before the `free`. -/
theorem free_malloc_roundtrip (fuel os : Nat) (s : State) (p c size : Nat)
    (hp8 : 8 < p) (hp : p < W64)
    (hinit : s.free_ptr ≠ 0) (hhead : s.head < W64)
    (hc : read64 s.mem (p - 8) = c) (hsize : size ≤ c) :
    ∃ s1, malloc fuel os (free s p) size = .ok (p, s1) ∧
      read64 s1.mem (p - 8) = c ∧
      s1.head = s.head ∧
      s1.free_ptr = s.free_ptr := by
  have hp0 : p ≠ 0 := by omega
  have hh : (p + W64 - HDR) % W64 = p - 8 := by
    simp only [HDR, W64] at hp ⊢
    omega
  have hf : free s p = { s with mem := write64 s.mem (p - 8 + 8) s.head, head := p - 8 } := by
    unfold free
    rw [if_neg hp0, hh]
  have hsz : read64 (write64 s.mem (p - 8 + 8) s.head) (p - 8) = c := by
    rw [read64_write64_disj _ _ _ _ (by omega), hc]
  have hnx : read64 (write64 s.mem (p - 8 + 8) s.head) (p - 8 + 8) = s.head := by
    rw [read64_write64_same, Nat.mod_eq_of_lt hhead]
  have hne : p - 8 ≠ 0 := by omega
  have hret : (p - 8 + HDR) % W64 = p := by
    simp only [HDR, W64] at hp ⊢
    omega
  refine ⟨{ s with mem := write64 s.mem (p - 8 + 8) s.head }, ?_, hsz, rfl, rfl⟩
  rw [hf]
  unfold malloc init
  simp only [if_neg hinit, ne_eq, hne, not_false_eq_true, if_pos, hsz, hsize, hnx, hret]

/-- Witness for C4: the live block at 1008 (capacity 50) is released and a
request of 30 bytes gets it back. -/
theorem free_malloc_roundtrip_witness :
    read64 sampleLive.mem (1008 - 8) = 50 ∧
      ∃ s1, malloc 0 0 (free sampleLive 1008) 30 = .ok (1008, s1) ∧
        read64 s1.mem (1008 - 8) = 50 ∧
        s1.head = sampleLive.head ∧
        s1.free_ptr = sampleLive.free_ptr :=
  ⟨by decide,
    free_malloc_roundtrip 0 0 sampleLive 1008 50 30 (by decide) (by decide) (by decide)
      (by decide) (by decide) (by decide)⟩

/-- C7 (resize-shrink is a no-op): for a non-null payload pointer `p` whose
header at `p - 8` records `b` and every `n` with `0 < n ≤ b`, `realloc p n`
returns `p` and the state (globals and every byte of memory) is unchanged. -/
theorem realloc_shrink_noop (fuel os : Nat) (s : State) (p n b : Nat)
    (hp8 : 8 ≤ p) (hp : p < W64)
    (hb : read64 s.mem (p - 8) = b) (hn0 : 0 < n) (hnb : n ≤ b) :
    realloc fuel os s p n = .ok (p, s) := by
  have hp0 : p ≠ 0 := by omega
  have hn : n ≠ 0 := by omega
  have hh : (p + W64 - HDR) % W64 = p - 8 := by
    simp only [HDR, W64] at hp ⊢
    omega
  unfold realloc
  simp only [if_neg hp0, if_neg hn, hh, hb, if_pos hnb]

/-- Witness for C7: shrinking the live block at 1008 (capacity 50) to 20. -/
theorem realloc_shrink_noop_witness :
    read64 sampleLive.mem (1008 - 8) = 50 ∧
      realloc 0 0 sampleLive 1008 20 = .ok (1008, sampleLive) :=
  ⟨by decide,
    realloc_shrink_noop 0 0 sampleLive 1008 20 50 (by decide) (by decide) (by decide)
      (by decide) (by decide)⟩

/-- C5, the code at the failing input: `A = malloc(4)` and `B = malloc(16)`
create headers recording 4 and 16; after `free(B)`, `free(A)` the free list is
the finite chain `BASE → BASE + 12`, node `BASE` records 4 and node
`BASE + 12` records 256, so the first fit for 100 bytes is `BASE + 12`;
`malloc(100)` returns it, but the size field of that node changes from 256 to
0, because the patched link field of the 4-byte block `BASE` overlaps it,
whereas unlinking is to leave the size field of every node unchanged. -/
theorem unlink_patch_changes_size :
    read64 smallThenBig.mem BASE = 4 ∧
      read64 smallThenBig.mem (BASE + 12) = 16 ∧
      twoFreed.free_ptr ≠ 0 ∧
      FreeList twoFreed.mem twoFreed.head [BASE, BASE + 12] ∧
      read64 twoFreed.mem BASE = 4 ∧
      read64 twoFreed.mem (BASE + 12) = 256 ∧
      retPtr (malloc 1 BASE twoFreed 100) = some (BASE + 12 + 8) ∧
      read64 (retState twoFreed (malloc 1 BASE twoFreed 100)).mem (BASE + 12) = 0 := by
  decide

/-- Unlink on a hit, for nodes that do not overlap: in an initialised state
whose free list is a finite chain `pre ++ n :: post` of pairwise non-overlapping 16-byte nodes,
with `n` the first node recording at least `size`, after `malloc size` the free
list is exactly `pre ++ post` in the same order (the head is patched and memory
untouched when `pre` is empty, the head is kept and only the predecessor's link
is written otherwise), the size field of every node, `n` included, is
unchanged, and the frontier cursor is unchanged. -/
theorem malloc_unlink (fuel os : Nat) (s : State) (size n : Nat) (pre post : List Nat)
    (hinit : s.free_ptr ≠ 0)
    (hchain : FreeList s.mem s.head (pre ++ n :: post))
    (hsep : Separated (pre ++ n :: post))
    (hpre : ∀ x ∈ pre, read64 s.mem x < size)
    (hfit : size ≤ read64 s.mem n)
    (hfuel : pre.length ≤ fuel) :
    ∃ s1, malloc fuel os s size = .ok ((n + 8) % W64, s1) ∧
      FreeList s1.mem s1.head (pre ++ post) ∧
      (pre = [] → s1.mem = s.mem) ∧
      (pre ≠ [] → s1.head = s.head) ∧
      (∀ x ∈ pre ++ n :: post, read64 s1.mem x = read64 s.mem x) ∧
      s1.free_ptr = s.free_ptr := by
  obtain ⟨s0, h0, _, _, hsame⟩ := init_ok os s (Or.inl hinit)
  have hs0 : s0 = s := hsame hinit
  subst hs0
  have h := malloc_hit fuel os s0 s0 size n pre post h0 rfl rfl hchain hpre hfit hfuel
  cases pre with
  | nil =>
    refine ⟨_, h, ?_, fun _ => rfl, fun hne => absurd rfl hne, fun _ _ => rfl, rfl⟩
    simp only [List.nil_append, FreeList] at hchain
    exact hchain.2.2
  | cons a t =>
    refine ⟨_, h, ?_, fun hnil => (by cases hnil), fun _ => rfl, ?_, rfl⟩
    · exact unlink_chain s0.mem n post t a s0.head hchain hsep
    · intro x hx
      have hl : lastOf a t ∈ (a :: t) ++ n :: post :=
        List.mem_append_left _ (lastOf_mem a t)
      show read64 (write64 s0.mem (lastOf a t + 8) (read64 s0.mem (n + 8))) x = read64 s0.mem x
      rcases Separated_cases _ hsep x (lastOf a t) hx hl with heq | hd
      · exact read64_write64_disj _ _ _ _ (by omega)
      · exact read64_write64_disj _ _ _ _ (by omega)

/-- Example for `malloc_unlink`: on `100 (10) → 200 (50) → 300 (30)` a request
of 20 bytes unlinks node 200 and leaves `100 → 300`. -/
theorem malloc_unlink_witness :
    FreeList sample3.mem sample3.head ([100] ++ 200 :: [300]) ∧
      Separated ([100] ++ 200 :: [300]) ∧
      ∃ s1, malloc 1 0 sample3 20 = .ok ((200 + 8) % W64, s1) ∧
        FreeList s1.mem s1.head ([100] ++ [300]) ∧
        (([100] : List Nat) = [] → s1.mem = sample3.mem) ∧
        (([100] : List Nat) ≠ [] → s1.head = sample3.head) ∧
        (∀ x ∈ [100] ++ 200 :: [300], read64 s1.mem x = read64 sample3.mem x) ∧
        s1.free_ptr = sample3.free_ptr :=
  ⟨by decide, by decide,
    malloc_unlink 1 0 sample3 20 200 [100] [300] (by decide) (by decide) (by decide)
      (by decide) (by decide) (by decide)⟩

theorem memcpy_dst (m : Mem) (dst src n i : Nat) (h : i < n) :
    memcpy m dst src n (dst + i) = m (src + i) := by
  unfold memcpy
  rw [if_pos (by omega)]
  congr 1
  omega

/-- The part of `realloc` after a successful `malloc`, on the growing path. -/
theorem realloc_after_malloc (fuel os : Nat) (s s1 : State) (p b n q : Nat)
    (hp8 : 8 ≤ p) (hp : p < W64)
    (hb : read64 s.mem (p - 8) = b) (hn : b < n)
    (hm : malloc fuel os s n = .ok (q, s1))
    (hq0 : q ≠ 0)
    (hkeep : ∀ i, i < b → s1.mem (p + i) = s.mem (p + i))
    (hapart : ∀ i, i < b → q + i < p ∨ p + 8 ≤ q + i) :
    ∃ s2, realloc fuel os s p n = .ok (q, s2) ∧
      (∀ i, i < b → s2.mem (q + i) = s.mem (p + i)) ∧ s2.head = p - 8 := by
  have hp0 : p ≠ 0 := by omega
  have hn0 : n ≠ 0 := by omega
  have hh : (p + W64 - HDR) % W64 = p - 8 := by
    simp only [HDR, W64] at hp ⊢
    omega
  have hnb : ¬ n ≤ b := by omega
  have hr : realloc fuel os s p n = .ok (q,
      free { s1 with mem := memcpy s1.mem q p b } p) := by
    unfold realloc
    simp only [if_neg hp0, if_neg hn0, hh, hb, if_neg hnb, hm, if_neg hq0]
  have hf : free { s1 with mem := memcpy s1.mem q p b } p =
      { s1 with mem := write64 (memcpy s1.mem q p b) (p - 8 + 8) s1.head, head := p - 8 } := by
    unfold free
    simp only [if_neg hp0, hh]
  refine ⟨_, hr, ?_, ?_⟩
  · intro i hi
    rw [hf]
    show write64 (memcpy s1.mem q p b) (p - 8 + 8) s1.head (q + i) = s.mem (p + i)
    have := hapart i hi
    rw [write64_outside _ _ _ _ (by omega), memcpy_dst _ _ _ _ _ hi]
    exact hkeep i hi
  · rw [hf]

/-- C6, the code at the failing input: `A = malloc(4)`, `F = malloc(8)`,
`P = malloc(32)`, then `free(F)`, `free(A)`. `P = BASE + 36` is live, its
header records the 32 bytes it was created with, and its payload is all zero.
`realloc(P, 100)` takes the 8-byte block `F` from the free list (its header,
overlapped by the link field of the 4-byte block `A`, records 256) and returns
`BASE + 20`, so the new block `[BASE + 20, BASE + 120)` contains the old one;
the link that `free(P)` then stores at `[BASE + 36, BASE + 44)` lands at
offsets 16 to 23 of the result, and the byte at offset 21 < 32 reads 1 where
the byte at offset 21 of `P` was 0 before the call. -/
theorem grow_returns_overlapping_block :
    retPtr (malloc 0 BASE State.initial 4) = some (BASE + 8) ∧
      threeLive.free_ptr = BASE + 68 ∧
      read64 threeLive.mem (BASE + 20 - 8) = 8 ∧
      read64 liveBehindFreed.mem (BASE + 36 - 8) = 32 ∧
      FreeList liveBehindFreed.mem liveBehindFreed.head [BASE, BASE + 12] ∧
      retPtr (realloc 2 BASE liveBehindFreed (BASE + 36) 100) = some (BASE + 20) ∧
      liveBehindFreed.mem (BASE + 36 + 21) = 0 ∧
      (retState liveBehindFreed (realloc 2 BASE liveBehindFreed (BASE + 36) 100)).mem
        (BASE + 20 + 21) = 1 := by
  decide

/-- Content preservation on resize-grow in a well laid out heap: let `p` be a payload
pointer whose header records `b`, in an initialised state whose free list is a
finite chain `ns`, such that the block `[p - 8, p + b)` ends at or below the
frontier cursor, every free block `[x, x + 8 + size x)` ends at or below the
cursor and lies wholly before the header of `p` or wholly after its payload,
and the cursor is at least 8 below the top of the address space. Then for every
`n > b`, `realloc p n` returns a pointer `q ≠ p` with, for every `i < b`, the
byte at `q + i` after the call equal to the byte at `p + i` before it, and
afterwards `p - 8` is the head of the free list. -/
theorem realloc_grow (fuel os : Nat) (s : State) (p b n : Nat) (ns : List Nat)
    (hp8 : 8 ≤ p) (hp : p < W64)
    (hinit : s.free_ptr ≠ 0)
    (hb : read64 s.mem (p - 8) = b) (hn : b < n)
    (hchain : FreeList s.mem s.head ns) (hfuel : ns.length ≤ fuel)
    (hbelow : p + b ≤ s.free_ptr) (hnowrap : s.free_ptr + 8 < W64)
    (hfree : ∀ x ∈ ns, x + 8 + read64 s.mem x ≤ s.free_ptr ∧
      (x + 8 + read64 s.mem x + 8 ≤ p ∨ p + b ≤ x)) :
    ∃ q s2, realloc fuel os s p n = .ok (q, s2) ∧ q ≠ p ∧
      (∀ i, i < b → s2.mem (q + i) = s.mem (p + i)) ∧ s2.head = p - 8 := by
  obtain ⟨s0, h0, _, _, hsame⟩ := init_ok os s (Or.inl hinit)
  have hs0 : s0 = s := hsame hinit
  subst hs0
  rcases firstFit_split s0.mem n ns with hmiss | ⟨pre, x, post, rfl, hpre, hfit⟩
  · -- served from the frontier
    have hm := malloc_miss fuel os s0 s0 n ns h0 rfl rfl hchain hmiss hfuel
    have hq : (s0.free_ptr + HDR) % W64 = s0.free_ptr + 8 := by
      simp only [HDR, W64] at hnowrap ⊢
      omega
    have hm1 : malloc fuel os s0 n = .ok (s0.free_ptr + 8, (carve s0 n).2) := by
      rw [hm]
      simp only [carve, hq]
    obtain ⟨s2, hr, hbytes, hhead⟩ := realloc_after_malloc fuel os s0 _ p b n _ hp8 hp hb hn hm1
      (by omega)
      (fun i hi => by
        show write64 s0.mem s0.free_ptr n (p + i) = s0.mem (p + i)
        exact write64_outside _ _ _ _ (by omega))
      (fun i hi => by omega)
    exact ⟨_, s2, hr, by omega, hbytes, hhead⟩
  · -- served from the free list
    have hx := hfree x (List.mem_append_right _ (List.mem_cons_self _ _))
    have hfuel1 : pre.length ≤ fuel := by
      simp only [List.length_append, List.length_cons] at hfuel
      omega
    have hm := malloc_hit fuel os s0 s0 n x pre post h0 rfl rfl hchain hpre hfit hfuel1
    have hq : (x + HDR) % W64 = x + 8 := by
      simp only [HDR, W64] at hnowrap ⊢
      omega
    rw [hq] at hm
    have hkeep : ∀ i, i < b → (unlinked s0 x pre).mem (p + i) = s0.mem (p + i) := by
      intro i hi
      cases pre with
      | nil => rfl
      | cons a t =>
        have hl : lastOf a t ∈ (a :: t) ++ x :: post :=
          List.mem_append_left _ (lastOf_mem a t)
        have := hfree _ hl
        show write64 s0.mem (lastOf a t + 8) (read64 s0.mem (x + 8)) (p + i) = s0.mem (p + i)
        exact write64_outside _ _ _ _ (by omega)
    obtain ⟨s2, hr, hbytes, hhead⟩ := realloc_after_malloc fuel os s0 _ p b n _ hp8 hp hb hn hm
      (by omega) hkeep (fun i hi => by omega)
    exact ⟨_, s2, hr, by omega, hbytes, hhead⟩

/-- Example for `realloc_grow`: in the sample heap the live block at 1008
(capacity 50) grows to 60 bytes; the free blocks at 2000 (20 bytes) and 3000
(80 bytes) lie after it and below the cursor 4096. -/
theorem realloc_grow_witness :
    read64 sampleHeap.mem (1008 - 8) = 50 ∧
      FreeList sampleHeap.mem sampleHeap.head [2000, 3000] ∧
      ∃ q s2, realloc 2 0 sampleHeap 1008 60 = .ok (q, s2) ∧ q ≠ 1008 ∧
        (∀ i, i < 50 → s2.mem (q + i) = sampleHeap.mem (1008 + i)) ∧ s2.head = 1008 - 8 :=
  ⟨by decide, by decide,
    realloc_grow 2 0 sampleHeap 1008 50 60 [2000, 3000] (by decide) (by decide) (by decide)
      (by decide) (by decide) (by decide) (by decide) (by decide) (by decide) (by decide)⟩

theorem bzero_outside (m : Mem) (p n x : Nat) (h : x < p ∨ p + n ≤ x) :
    bzero m p n x = m x := by
  unfold bzero
  rw [if_neg]
  omega

theorem read64_bzero_disj (m : Mem) (p n b : Nat) (h : b + 8 ≤ p ∨ p + n ≤ b) :
    read64 (bzero m p n) b = read64 m b := by
  unfold read64
  rw [bzero_outside m p n b (by omega), bzero_outside m p n (b + 1) (by omega),
    bzero_outside m p n (b + 2) (by omega), bzero_outside m p n (b + 3) (by omega),
    bzero_outside m p n (b + 4) (by omega), bzero_outside m p n (b + 5) (by omega),
    bzero_outside m p n (b + 6) (by omega), bzero_outside m p n (b + 7) (by omega)]

/-- C8, the code at the failing input: after `A = malloc(4)`, `B, C, D =
malloc(16)` and `free` of `D, C, B, A` the free list is `A → B → C → D` and the
header of the 16-byte block `B`, overlapped by the link field of the 4-byte
block `A`, records 256. Both `malloc(30)` and `calloc(30, 1)` return
`B = BASE + 20`, but `malloc` leaves the free list `A → C → D` while `calloc`
leaves `A → C`: zeroing 30 bytes from `B` runs over the node of `C`, whereas
`calloc` is to leave the free list `malloc` would leave. -/
theorem calloc_differs_from_malloc :
    FreeList fourFreed.mem fourFreed.head [BASE, BASE + 12, BASE + 36, BASE + 60] ∧
      read64 fourFreed.mem (BASE + 12) = 256 ∧
      retPtr (malloc 2 BASE fourFreed 30) = some (BASE + 20) ∧
      retPtr (calloc 2 BASE fourFreed 30 1) = some (BASE + 20) ∧
      FreeList (retState fourFreed (malloc 2 BASE fourFreed 30)).mem
        (retState fourFreed (malloc 2 BASE fourFreed 30)).head [BASE, BASE + 36, BASE + 60] ∧
      FreeList (retState fourFreed (calloc 2 BASE fourFreed 30 1)).mem
        (retState fourFreed (calloc 2 BASE fourFreed 30 1)).head [BASE, BASE + 36] := by
  decide

/-- Zero-allocate away from the free list: let `t = (nmemb * size) mod 2^64`. Whenever
`malloc t` returns a non-null pointer `p` leaving a state whose free list is a
finite chain `ns` none of whose 16-byte nodes overlaps `[p, p + t)`, then
`calloc nmemb size` returns the same `p`, leaves the same head, the same chain
with the same size and link fields, and the same frontier cursor as `malloc t`,
and every byte at offsets `0 .. t-1` of the payload is zero. -/
theorem calloc_as_malloc (fuel os : Nat) (s s1 : State) (nmemb size p : Nat) (ns : List Nat)
    (hm : malloc fuel os s ((nmemb * size) % W64) = .ok (p, s1))
    (hp0 : p ≠ 0)
    (hchain : FreeList s1.mem s1.head ns)
    (hsep : ∀ x ∈ ns, x + 16 ≤ p ∨ p + (nmemb * size) % W64 ≤ x) :
    ∃ s2, calloc fuel os s nmemb size = .ok (p, s2) ∧
      s2.head = s1.head ∧
      s2.free_ptr = s1.free_ptr ∧
      FreeList s2.mem s2.head ns ∧
      (∀ x ∈ ns, read64 s2.mem x = read64 s1.mem x ∧
        read64 s2.mem (x + 8) = read64 s1.mem (x + 8)) ∧
      (∀ i, i < (nmemb * size) % W64 → s2.mem (p + i) = 0) := by
  have hc : calloc fuel os s nmemb size =
      .ok (p, { s1 with mem := bzero s1.mem p ((nmemb * size) % W64) }) := by
    unfold calloc
    simp only [hm, if_neg hp0]
  have hfields : ∀ x ∈ ns,
      read64 (bzero s1.mem p ((nmemb * size) % W64)) x = read64 s1.mem x ∧
      read64 (bzero s1.mem p ((nmemb * size) % W64)) (x + 8) = read64 s1.mem (x + 8) := by
    intro x hx
    have := hsep x hx
    exact ⟨read64_bzero_disj _ _ _ _ (by omega), read64_bzero_disj _ _ _ _ (by omega)⟩
  refine ⟨_, hc, rfl, rfl, ?_, hfields, ?_⟩
  · exact FreeList_congr s1.mem _ ns _ (fun x hx => (hfields x hx).2) hchain
  · intro i hi
    show bzero s1.mem p ((nmemb * size) % W64) (p + i) = 0
    unfold bzero
    rw [if_pos (by omega)]

/-- Example for `calloc_as_malloc`: in the sample heap `calloc(5, 4)` reuses the
20-byte block at 2000 and leaves the free list `3000`. -/
theorem calloc_as_malloc_witness :
    ∃ s1, malloc 2 0 sampleHeap ((5 * 4) % W64) = .ok (2008, s1) ∧
      FreeList s1.mem s1.head [3000] ∧
      ∃ s2, calloc 2 0 sampleHeap 5 4 = .ok (2008, s2) ∧
        s2.head = s1.head ∧
        s2.free_ptr = s1.free_ptr ∧
        FreeList s2.mem s2.head [3000] ∧
        (∀ x ∈ [3000], read64 s2.mem x = read64 s1.mem x ∧
          read64 s2.mem (x + 8) = read64 s1.mem (x + 8)) ∧
        (∀ i, i < (5 * 4) % W64 → s2.mem (2008 + i) = 0) :=
  ⟨retState sampleHeap (malloc 2 0 sampleHeap ((5 * 4) % W64)), rfl, by decide,
    calloc_as_malloc 2 0 sampleHeap _ 5 4 2008 [3000] rfl (by decide) (by decide)
      (by decide)⟩

/-- C9, the code at the failing input: after `malloc(4)` and `malloc(10)` both
blocks are live, the frontier cursor `BASE + 30` is inside the region, and the
header of the second block (payload `BASE + 20`) records 10; `free` of the
first block (payload `BASE + 8`, a live pointer) leaves the second block live
with a header recording 0. -/
theorem free_small_block_changes_other_header :
    retPtr (malloc 0 BASE State.initial 4) = some (BASE + 8) ∧
      retPtr (malloc 0 BASE (retState State.initial (malloc 0 BASE State.initial 4)) 10)
        = some (BASE + 20) ∧
      twoLive.head = 0 ∧
      twoLive.start_ptr ≤ twoLive.free_ptr ∧ twoLive.free_ptr ≤ twoLive.end_ptr ∧
      read64 twoLive.mem (BASE + 20 - 8) = 10 ∧
      read64 (free twoLive (BASE + 8)).mem (BASE + 20 - 8) = 0 := by
  decide

/-- C10, the code at the failing input: after `P1 = malloc(4)`,
`P2 = malloc(8)`, `P3 = malloc(8)`, `free(P2)`, `free(P1)` the block
`P3 = BASE + 36` is live with 8 payload bytes and is not on the free list
`BASE → BASE + 12`; `malloc(100)` then returns `BASE + 20`, so the returned
range `[BASE + 20, BASE + 120)` contains the payload `[BASE + 36, BASE + 44)` of
the live block `P3`. -/
theorem malloc_returns_range_over_live_block :
    retPtr (malloc 0 BASE
        (retState State.initial (malloc 0 BASE
          (retState State.initial (malloc 0 BASE State.initial 4)) 8)) 8) = some (BASE + 36) ∧
      FreeList oneLiveTwoFreed.mem oneLiveTwoFreed.head [BASE, BASE + 12] ∧
      oneLiveTwoFreed.free_ptr ≤ oneLiveTwoFreed.end_ptr ∧
      retPtr (malloc 1 BASE oneLiveTwoFreed 100) = some (BASE + 20) ∧
      BASE + 20 ≤ BASE + 36 ∧ BASE + 36 + 8 ≤ BASE + 20 + 100 := by
  decide

/-- C11, the code at the failing input: after `A = malloc(4)` and
`B = malloc(16)` the two live pointers `A = BASE + 8` and `B = BASE + 20` are
distinct and their headers record 4 and 16, both at least `s = 4`; after
`free(A); free(B)` the first `malloc(4)` returns `A`, not `B`, and the second
returns a fresh frontier block, not `A`. -/
theorem lifo_broken_by_small_block :
    read64 smallThenBig.mem (BASE + 8 - 8) = 4 ∧
      read64 smallThenBig.mem (BASE + 20 - 8) = 16 ∧
      smallThenBig.free_ptr = BASE + 36 ∧
      retPtr (malloc 2 BASE (free (free smallThenBig (BASE + 8)) (BASE + 20)) 4)
        = some (BASE + 8) ∧
      retPtr (malloc 2 BASE
          (retState smallThenBig
            (malloc 2 BASE (free (free smallThenBig (BASE + 8)) (BASE + 20)) 4)) 4)
        = some (BASE + 44) := by
  decide

/-- C14, the code at the failing input: after `malloc(4)`, `free` of that
block and `malloc(10)`, following the links from the head visits the node
`BASE` and then the address `10 * 2^32`, which is not the header of any block:
the only headers ever created are at `BASE` and `BASE + 12`. -/
theorem free_list_reaches_non_block :
    retPtr (malloc 1 BASE smallFreed 10) = some (BASE + 20) ∧
      FreeList (retState smallFreed (malloc 1 BASE smallFreed 10)).mem
        (retState smallFreed (malloc 1 BASE smallFreed 10)).head [BASE, 10 * 2 ^ 32] ∧
      10 * 2 ^ 32 ≠ BASE ∧ 10 * 2 ^ 32 ≠ BASE + 12 := by
  decide

/-- C15 (null-pointer resize is allocate): for every state and every size,
zero included, `realloc NULL n` is `malloc n`: same returned pointer, same
resulting state, same failure if any. -/
theorem realloc_null_is_malloc (fuel os : Nat) (s : State) (n : Nat) :
    realloc fuel os s 0 n = malloc fuel os s n := by
  unfold realloc
  rw [if_pos rfl]

/-- C16 (zero-size resize is release): for a non-null pointer `p`,
`realloc p 0` returns `NULL` and leaves exactly the state `free p` leaves: the
64-bit address `p - 8` is the head, memory is that of the start with the link
written, and the frontier cursor is unchanged. -/
theorem realloc_zero_is_free (fuel os : Nat) (s : State) (p : Nat) (hp0 : p ≠ 0) :
    realloc fuel os s p 0 = .ok (0, free s p) ∧
      (free s p).head = (p + W64 - 8) % W64 ∧
      (free s p).mem = write64 s.mem ((p + W64 - 8) % W64 + 8) s.head ∧
      (free s p).free_ptr = s.free_ptr := by
  have hf : free s p = { s with mem := write64 s.mem ((p + W64 - HDR) % W64 + 8) s.head,
                                head := (p + W64 - HDR) % W64 } := by
    unfold free
    rw [if_neg hp0]
  refine ⟨?_, ?_, ?_, ?_⟩
  · unfold realloc
    rw [if_neg hp0, if_pos rfl]
  · rw [hf]; rfl
  · rw [hf]; rfl
  · rw [hf]

/-- Witness for C16: resizing the live block at 1008 of the sample state to
zero. -/
theorem realloc_zero_is_free_witness :
    realloc 0 0 sampleLive 1008 0 = .ok (0, free sampleLive 1008) ∧
      (free sampleLive 1008).head = (1008 + W64 - 8) % W64 ∧
      (free sampleLive 1008).mem
        = write64 sampleLive.mem ((1008 + W64 - 8) % W64 + 8) sampleLive.head ∧
      (free sampleLive 1008).free_ptr = sampleLive.free_ptr :=
  realloc_zero_is_free 0 0 sampleLive 1008 (by decide)

/-- C17 (releasing null is a no-op): for every state, the not yet initialised
one included, `free NULL` returns the state unchanged: head, frontier cursor,
region bounds and every byte of memory. -/
theorem free_null_noop (s : State) : free s 0 = s := by
  unfold free
  rw [if_pos rfl]

theorem init_cursor (os : Nat) (s : State) (h : s.free_ptr ≠ 0 ∨ os ≠ MAP_FAILED) :
    ∃ s1, init os s = .ok s1 ∧ s1.mem = s.mem ∧ s1.head = s.head ∧
      s1.free_ptr = (if s.free_ptr = 0 then os else s.free_ptr) := by
  unfold init
  by_cases hf : s.free_ptr = 0
  · have hos : os ≠ MAP_FAILED := by
      rcases h with h | h
      · exact absurd hf h
      · exact h
    rw [if_pos hf, if_neg hos]
    exact ⟨_, rfl, rfl, rfl, by rw [if_pos hf]⟩
  · rw [if_neg hf]
    exact ⟨s, rfl, rfl, rfl, by rw [if_neg hf]⟩

theorem FreeList_lt (m : Mem) :
    ∀ (ns : List Nat) (h : Nat), h < W64 → FreeList m h ns → ∀ x ∈ ns, x < W64 := by
  intro ns
  induction ns with
  | nil => intro h _ _ x hx; cases hx
  | cons a t ih =>
    intro h hlt hc x hx
    simp only [FreeList] at hc
    obtain ⟨h1, _, h3⟩ := hc
    rcases List.mem_cons.mp hx with rfl | hx
    · omega
    · exact ih _ (read64_lt _ _) h3 x hx

/-- The header of a block carved from the frontier records the requested
size. -/
theorem carve_header (s : State) (size : Nat) (hlt : s.free_ptr < W64) (hsize : size < W64) :
    read64 (carve s size).2.mem (((carve s size).1 + W64 - 8) % W64) = size := by
  show read64 (write64 s.mem s.free_ptr size) (((s.free_ptr + HDR) % W64 + W64 - 8) % W64)
    = size
  have ha : ((s.free_ptr + HDR) % W64 + W64 - 8) % W64 = s.free_ptr := by
    simp only [HDR, W64] at hlt ⊢
    omega
  rw [ha, read64_write64_same, Nat.mod_eq_of_lt hsize]

/-- C12, counterexample: after `malloc(50)` and `free` of that block,
`malloc(30)` returns the same payload address `BASE + 8` and the header at
`BASE` records 50, not 30. -/
theorem reuse_keeps_recorded_size :
    retPtr (malloc 0 BASE freed50 30) = some (BASE + 8) ∧
      read64 (retState freed50 (malloc 0 BASE freed50 30)).mem (BASE + 8 - 8) = 50 := by
  decide

/-- C12, amended (header integrity on the frontier path): for every state
whose free list is a finite chain with no node recording at least `size`
(the empty list included), immediately after `p = malloc size` the header at
the 64-bit address `p - 8` records `size`. The cursor, the value `mmap` would
return and `size` are 64-bit values and the region reservation does not
fail. -/
theorem malloc_header_on_frontier (fuel os : Nat) (s : State) (size : Nat) (ns : List Nat)
    (hinit : s.free_ptr ≠ 0 ∨ os ≠ MAP_FAILED)
    (hcur : s.free_ptr < W64) (hos : os < W64) (hsize : size < W64)
    (hchain : FreeList s.mem s.head ns)
    (hmiss : ∀ x ∈ ns, read64 s.mem x < size)
    (hfuel : ns.length ≤ fuel) :
    ∃ p s1, malloc fuel os s size = .ok (p, s1) ∧
      read64 s1.mem ((p + W64 - 8) % W64) = size := by
  obtain ⟨s0, h0, hmem, hhead, hfp⟩ := init_cursor os s hinit
  have hm := malloc_miss fuel os s s0 size ns h0 hmem hhead hchain hmiss hfuel
  have hlt : s0.free_ptr < W64 := by
    rw [hfp]
    split <;> assumption
  exact ⟨_, _, hm, carve_header s0 size hlt hsize⟩

/-- Witness for the amended C12: on the sample list (sizes 10, 50, 30) a
request of 60 bytes is carved from the frontier and its header records 60. -/
theorem malloc_header_on_frontier_witness :
    FreeList sample3.mem sample3.head [100, 200, 300] ∧
      ∃ p s1, malloc 3 0 sample3 60 = .ok (p, s1) ∧
        read64 s1.mem ((p + W64 - 8) % W64) = 60 :=
  ⟨by decide,
    malloc_header_on_frontier 3 0 sample3 60 [100, 200, 300] (by decide) (by decide)
      (by decide) (by decide) (by decide) (by decide) (by decide)⟩

/-- C18, counterexample: after `A = malloc(50)`, `B = malloc(50)`, `free(A)`,
`free(B)`, the call `calloc(1, 1)` reuses `B = BASE + 66`, whose header records
50; the byte at offset 0 is zero but the byte at offset 5 < 50 is 1 (a byte of
the link that `free` stored there). -/
theorem calloc_leaves_bytes_beyond_request :
    retPtr (calloc 0 BASE twoFreed50 1 1) = some (BASE + 66) ∧
      read64 (retState twoFreed50 (calloc 0 BASE twoFreed50 1 1)).mem (BASE + 66 - 8) = 50 ∧
      (retState twoFreed50 (calloc 0 BASE twoFreed50 1 1)).mem (BASE + 66 + 0) = 0 ∧
      (retState twoFreed50 (calloc 0 BASE twoFreed50 1 1)).mem (BASE + 66 + 5) = 1 := by
  decide

/-- C18, amended (zero-allocate purity over the requested bytes): let
`t = (nmemb * size) mod 2^64`. Whenever `malloc t` returns a non-null pointer
`p`, `calloc nmemb size` returns `p` and every byte at `p + i` for `i < t` reads
as zero; every byte outside `[p, p + t)`, in particular the rest of a larger
reused block, is as `malloc t` left it. -/
theorem calloc_zeroes_requested (fuel os : Nat) (s s1 : State) (nmemb size p : Nat)
    (hm : malloc fuel os s ((nmemb * size) % W64) = .ok (p, s1))
    (hp0 : p ≠ 0) :
    ∃ s2, calloc fuel os s nmemb size = .ok (p, s2) ∧
      (∀ i, i < (nmemb * size) % W64 → s2.mem (p + i) = 0) ∧
      (∀ x, x < p ∨ p + (nmemb * size) % W64 ≤ x → s2.mem x = s1.mem x) := by
  have hc : calloc fuel os s nmemb size =
      .ok (p, { s1 with mem := bzero s1.mem p ((nmemb * size) % W64) }) := by
    unfold calloc
    simp only [hm, if_neg hp0]
  refine ⟨_, hc, ?_, ?_⟩
  · intro i hi
    show bzero s1.mem p ((nmemb * size) % W64) (p + i) = 0
    unfold bzero
    rw [if_pos (by omega)]
  · intro x hx
    exact bzero_outside _ _ _ _ hx

/-- Witness for the amended C18: in the sample heap `calloc(5, 4)` returns the
block at 2008 with its 20 requested bytes zero. -/
theorem calloc_zeroes_requested_witness :
    ∃ s1, malloc 2 0 sampleHeap ((5 * 4) % W64) = .ok (2008, s1) ∧
      ∃ s2, calloc 2 0 sampleHeap 5 4 = .ok (2008, s2) ∧
        (∀ i, i < (5 * 4) % W64 → s2.mem (2008 + i) = 0) ∧
        (∀ x, x < 2008 ∨ 2008 + (5 * 4) % W64 ≤ x → s2.mem x = s1.mem x) :=
  ⟨retState sampleHeap (malloc 2 0 sampleHeap ((5 * 4) % W64)), rfl,
    calloc_zeroes_requested 2 0 sampleHeap _ 5 4 2008 rfl (by decide)⟩

/-- C20, the code at the failing input: `A = malloc(4)` and `B = malloc(16)`
(payload `BASE + 20`, created with 16 bytes), then `free(B)`, `free(A)`; the
free list is the finite chain `BASE → BASE + 12`. `malloc(100)` returns
`BASE + 20`, the 16-byte block, and the header at `BASE + 12` records 0
immediately after the call, which is below the 100 bytes requested. -/
theorem reused_block_records_too_little :
    retPtr (malloc 0 BASE (retState State.initial (malloc 0 BASE State.initial 4)) 16)
        = some (BASE + 20) ∧
      read64 smallThenBig.mem (BASE + 20 - 8) = 16 ∧
      FreeList twoFreed.mem twoFreed.head [BASE, BASE + 12] ∧
      retPtr (malloc 1 BASE twoFreed 100) = some (BASE + 20) ∧
      read64 (retState twoFreed (malloc 1 BASE twoFreed 100)).mem (BASE + 20 - 8) < 100 := by
  decide

/-- Sufficient capacity for nodes that do not overlap: for every state whose free list is a
finite chain `ns` of pairwise non-overlapping 16-byte nodes and every `size`,
`malloc size` returns a pointer `p` whose header at the 64-bit address `p - 8`
records, immediately after the call, at least `size`: exactly `size` when no
node records at least `size` (frontier path), and the size the first fitting
node recorded before the call otherwise. The head, the cursor, the value
`mmap` would return and `size` are 64-bit values and the region reservation
does not fail. -/
theorem malloc_sufficient_capacity (fuel os : Nat) (s : State) (size : Nat) (ns : List Nat)
    (hinit : s.free_ptr ≠ 0 ∨ os ≠ MAP_FAILED)
    (hcur : s.free_ptr < W64) (hos : os < W64) (hhd : s.head < W64) (hsize : size < W64)
    (hchain : FreeList s.mem s.head ns)
    (hsep : Separated ns)
    (hfuel : ns.length ≤ fuel) :
    ∃ p s1, malloc fuel os s size = .ok (p, s1) ∧
      size ≤ read64 s1.mem ((p + W64 - 8) % W64) ∧
      ((∀ x ∈ ns, read64 s.mem x < size) → read64 s1.mem ((p + W64 - 8) % W64) = size) ∧
      (∀ pre n post, ns = pre ++ n :: post → (∀ x ∈ pre, read64 s.mem x < size) →
        size ≤ read64 s.mem n →
        p = (n + 8) % W64 ∧ read64 s1.mem ((p + W64 - 8) % W64) = read64 s.mem n) := by
  obtain ⟨s0, h0, hmem, hhead, hfp⟩ := init_cursor os s hinit
  rcases firstFit_split s.mem size ns with hmiss | ⟨pre, n, post, rfl, hpre, hfit⟩
  · -- frontier path
    have hm := malloc_miss fuel os s s0 size ns h0 hmem hhead hchain hmiss hfuel
    have hlt : s0.free_ptr < W64 := by
      rw [hfp]
      split <;> assumption
    have hhdr := carve_header s0 size hlt hsize
    refine ⟨_, _, hm, Nat.le_of_eq hhdr.symm, fun _ => hhdr, ?_⟩
    intro pre n post hns _ hfit
    have := hmiss n (by rw [hns]; exact List.mem_append_right _ (List.mem_cons_self _ _))
    omega
  · -- free-list path
    have hfuel1 : pre.length ≤ fuel := by
      simp only [List.length_append, List.length_cons] at hfuel
      omega
    have hm := malloc_hit fuel os s s0 size n pre post h0 hmem hhead hchain hpre hfit hfuel1
    have hn : n < W64 :=
      FreeList_lt s.mem _ _ hhd hchain n (List.mem_append_right _ (List.mem_cons_self _ _))
    have ha : ((n + HDR) % W64 + W64 - 8) % W64 = n := by
      simp only [HDR, W64] at hn ⊢
      omega
    have hkeep : read64 (unlinked s0 n pre).mem n = read64 s.mem n := by
      cases pre with
      | nil =>
        show read64 s0.mem n = read64 s.mem n
        rw [hmem]
      | cons a t =>
        have hl : lastOf a t ∈ (a :: t) ++ n :: post :=
          List.mem_append_left _ (lastOf_mem a t)
        have hnm : n ∈ (a :: t) ++ n :: post :=
          List.mem_append_right _ (List.mem_cons_self _ _)
        show read64 (write64 s0.mem (lastOf a t + 8) (read64 s0.mem (n + 8))) n = read64 s.mem n
        rw [hmem]
        rcases Separated_cases _ hsep n (lastOf a t) hnm hl with heq | hd
        · exact read64_write64_disj _ _ _ _ (by omega)
        · exact read64_write64_disj _ _ _ _ (by omega)
    have hval : read64 (unlinked s0 n pre).mem (((n + HDR) % W64 + W64 - 8) % W64)
        = read64 s.mem n := by
      rw [ha, hkeep]
    refine ⟨_, _, hm, by rw [hval]; exact hfit, ?_, ?_⟩
    · intro hall
      have := hall n (List.mem_append_right _ (List.mem_cons_self _ _))
      omega
    · intro pre1 n1 post1 hsplit hpre1 hfit1
      -- the first fitting node is unique
      have huniq : ∀ (l1 l2 : List Nat) (a b : Nat) (r1 r2 : List Nat),
          l1 ++ a :: r1 = l2 ++ b :: r2 →
          (∀ x ∈ l1, read64 s.mem x < size) → size ≤ read64 s.mem a →
          (∀ x ∈ l2, read64 s.mem x < size) → size ≤ read64 s.mem b → a = b := by
        intro l1
        induction l1 with
        | nil =>
          intro l2 a b r1 r2 he _ hfa hl2 _
          cases l2 with
          | nil =>
            simp only [List.nil_append, List.cons.injEq] at he
            exact he.1
          | cons c l2 =>
            simp only [List.nil_append, List.cons_append, List.cons.injEq] at he
            have := hl2 c (List.mem_cons_self _ _)
            rw [← he.1] at this
            omega
        | cons c l1 ih =>
          intro l2 a b r1 r2 he hl1 hfa hl2 hfb
          cases l2 with
          | nil =>
            simp only [List.nil_append, List.cons_append, List.cons.injEq] at he
            have := hl1 c (List.mem_cons_self _ _)
            rw [he.1] at this
            omega
          | cons d l2 =>
            simp only [List.cons_append, List.cons.injEq] at he
            exact ih l2 a b r1 r2 he.2 (fun x hx => hl1 x (List.mem_cons_of_mem _ hx)) hfa
              (fun x hx => hl2 x (List.mem_cons_of_mem _ hx)) hfb
      have hnn : n = n1 := huniq pre pre1 n n1 post post1 hsplit hpre hfit hpre1 hfit1
      subst hnn
      exact ⟨by simp only [HDR], hval⟩

/-- Example for `malloc_sufficient_capacity`: on `100 (10) → 200 (50) → 300 (30)` a request
of 20 bytes returns a block whose header records at least 20. -/
theorem malloc_sufficient_capacity_witness :
    FreeList sample3.mem sample3.head [100, 200, 300] ∧ Separated [100, 200, 300] ∧
      ∃ p s1, malloc 3 0 sample3 20 = .ok (p, s1) ∧
        20 ≤ read64 s1.mem ((p + W64 - 8) % W64) ∧
        ((∀ x ∈ [100, 200, 300], read64 sample3.mem x < 20) →
          read64 s1.mem ((p + W64 - 8) % W64) = 20) ∧
        (∀ pre n post, [100, 200, 300] = pre ++ n :: post →
          (∀ x ∈ pre, read64 sample3.mem x < 20) → 20 ≤ read64 sample3.mem n →
          p = (n + 8) % W64 ∧
            read64 s1.mem ((p + W64 - 8) % W64) = read64 sample3.mem n) :=
  ⟨by decide, by decide,
    malloc_sufficient_capacity 3 0 sample3 20 [100, 200, 300] (by decide) (by decide)
      (by decide) (by decide) (by decide) (by decide) (by decide) (by decide)⟩

/-! ## The frontier cursor along a sequence of calls -/

theorem init_initial (os : Nat) (h : os ≠ MAP_FAILED) :
    init os State.initial = .ok (State.fresh os) := by
  unfold init
  simp only [State.initial, if_true, if_neg h, State.fresh]

theorem searchLoop_globals (size : Nat) :
    ∀ (fuel : Nat) (s : State) (cur p : Nat) (s1 : State),
      searchLoop size fuel s cur = .ok (some (p, s1)) →
      s1.free_ptr = s.free_ptr ∧ s1.start_ptr = s.start_ptr ∧ s1.end_ptr = s.end_ptr := by
  intro fuel
  induction fuel with
  | zero =>
    intro s cur p s1 h
    simp only [searchLoop] at h
    cases h
  | succ k ih =>
    intro s cur p s1 h
    simp only [searchLoop] at h
    split at h
    · cases h
    · split at h
      · simp only [Except.ok.injEq, Option.some.injEq, Prod.mk.injEq] at h
        obtain ⟨_, rfl⟩ := h
        exact ⟨rfl, rfl, rfl⟩
      · exact ih s _ p s1 h

/-- In an initialised state `malloc` leaves the region bounds alone and either
leaves the cursor alone or advances it by the header width plus the request. -/
theorem malloc_globals (fuel os : Nat) (s : State) (size p : Nat) (s1 : State)
    (hinit : s.free_ptr ≠ 0)
    (h : malloc fuel os s size = .ok (p, s1)) :
    s1.start_ptr = s.start_ptr ∧ s1.end_ptr = s.end_ptr ∧
      (s1.free_ptr = s.free_ptr ∨ s1.free_ptr = ((s.free_ptr + HDR) % W64 + size) % W64) := by
  unfold malloc init at h
  simp only [if_neg hinit] at h
  split at h
  · split at h
    · simp only [Except.ok.injEq, Prod.mk.injEq] at h
      obtain ⟨_, rfl⟩ := h
      exact ⟨rfl, rfl, Or.inl rfl⟩
    · split at h
      · cases h
      · rename_i r hr
        simp only [Except.ok.injEq] at h
        subst h
        obtain ⟨h1, h2, h3⟩ := searchLoop_globals size fuel s s.head p s1 hr
        exact ⟨h2, h3, Or.inl h1⟩
      · simp only [Except.ok.injEq, carve, Prod.mk.injEq] at h
        obtain ⟨_, rfl⟩ := h
        exact ⟨rfl, rfl, Or.inr rfl⟩
  · simp only [Except.ok.injEq, carve, Prod.mk.injEq] at h
    obtain ⟨_, rfl⟩ := h
    exact ⟨rfl, rfl, Or.inr rfl⟩

theorem free_globals (s : State) (p : Nat) :
    (free s p).start_ptr = s.start_ptr ∧ (free s p).end_ptr = s.end_ptr ∧
      (free s p).free_ptr = s.free_ptr := by
  unfold free
  split
  · exact ⟨rfl, rfl, rfl⟩
  · exact ⟨rfl, rfl, rfl⟩

theorem Room_malloc (fuel os : Nat) (s : State) (size k p : Nat) (s1 : State)
    (hr : Room s (8 + size + k))
    (h : malloc fuel os s size = .ok (p, s1)) : Room s1 k := by
  obtain ⟨h0, h1, h2, h3, h4⟩ := hr
  obtain ⟨g1, g2, g3⟩ := malloc_globals fuel os s size p s1 (by omega) h
  unfold Room
  rw [g1, g2]
  rcases g3 with g3 | g3
  · rw [g3]
    exact ⟨h0, h1, by omega, h3, h4⟩
  · have hc : ((s.free_ptr + HDR) % W64 + size) % W64 = s.free_ptr + 8 + size := by
      simp only [HDR, W64] at h4 ⊢
      omega
    rw [g3, hc]
    exact ⟨h0, by omega, by omega, h3, h4⟩

theorem Room_free (s : State) (p k : Nat) (hr : Room s k) : Room (free s p) k := by
  obtain ⟨g1, g2, g3⟩ := free_globals s p
  unfold Room at hr ⊢
  rw [g1, g2, g3]
  exact hr

theorem Room_mono (s : State) (k j : Nat) (hkj : k ≤ j) (hr : Room s j) : Room s k := by
  obtain ⟨h0, h1, h2, h3, h4⟩ := hr
  exact ⟨h0, h1, by omega, h3, h4⟩

theorem Room_step (fuel os : Nat) (s s1 : State) (c : Call) (k : Nat)
    (hr : Room s (demand c + k))
    (h : step fuel os s c = .ok s1) : Room s1 k := by
  cases c with
  | malloc size =>
    simp only [step] at h
    split at h
    · cases h
    · rename_i p s2 hm
      simp only [Except.ok.injEq] at h
      subst h
      exact Room_malloc fuel os s size k p s2 hr hm
  | calloc nmemb size =>
    simp only [step, calloc] at h
    split at h
    · cases h
    · rename_i p s2 hc
      simp only [Except.ok.injEq] at h
      subst h
      split at hc
      · cases hc
      · rename_i q s3 hm
        split at hc
        · cases hc
        · simp only [Except.ok.injEq, Prod.mk.injEq] at hc
          obtain ⟨_, rfl⟩ := hc
          exact Room_malloc fuel os s _ k q s3 hr hm
  | realloc ptr size =>
    simp only [step, realloc] at h
    split at h
    · cases h
    · rename_i p s2 hc
      simp only [Except.ok.injEq] at h
      subst h
      split at hc
      · exact Room_malloc fuel os s size k p s2 hr hc
      · split at hc
        · simp only [Except.ok.injEq, Prod.mk.injEq] at hc
          obtain ⟨_, rfl⟩ := hc
          exact Room_free s ptr k (Room_mono s k _ (by omega) hr)
        · split at hc
          · simp only [Except.ok.injEq, Prod.mk.injEq] at hc
            obtain ⟨_, rfl⟩ := hc
            exact Room_mono s k _ (by omega) hr
          · split at hc
            · cases hc
            · rename_i q s3 hm
              split at hc
              · cases hc
              · simp only [Except.ok.injEq, Prod.mk.injEq] at hc
                obtain ⟨_, rfl⟩ := hc
                have h3 : Room s3 k := Room_malloc fuel os s size k q s3 hr hm
                exact Room_free { s3 with mem := memcpy s3.mem q ptr (read64 s.mem
                  ((ptr + W64 - HDR) % W64)) } ptr k h3
  | free ptr =>
    simp only [step, Except.ok.injEq] at h
    subst h
    exact Room_free s ptr k (Room_mono s k _ (by simp only [demand]; omega) hr)

theorem Room_run (fuel os : Nat) :
    ∀ (cs : List Call) (s s1 : State) (k : Nat),
      Room s (totalDemand cs + k) → run fuel os s cs = .ok s1 → Room s1 k := by
  intro cs
  induction cs with
  | nil =>
    intro s s1 k hr h
    simp only [run, Except.ok.injEq] at h
    subst h
    exact Room_mono s k _ (by omega) hr
  | cons c cs ih =>
    intro s s1 k hr h
    simp only [run] at h
    split at h
    · cases h
    · rename_i s2 hs
      have h2 : Room s2 (totalDemand cs + k) := by
        refine Room_step fuel os s s2 c _ ?_ hs
        simp only [totalDemand] at hr
        exact Room_mono s _ _ (by omega) hr
      exact ih s2 s1 k h2 h

/-- C13, counterexample: from the freshly initialised state the single call
`malloc(2^31)` returns and leaves the cursor at `start + 8 + 2^31`, above
`end = start + 2^31`. -/
theorem cursor_passes_region_end :
    ∃ s1, run 0 BASE (State.fresh BASE) [Call.malloc (2 ^ 31)] = .ok s1 ∧
      s1.end_ptr = s1.start_ptr + HEAP_SIZE ∧ s1.end_ptr < s1.free_ptr :=
  ⟨_, rfl, by decide, by decide⟩

/-- C13, amended (frontier bounds): in every state reached from the freshly
initialised state (region start `os ≠ NULL`, region end below `2^64`) by a
sequence of `malloc`, `calloc`, `realloc` and `free` calls whose requests, each
counted with its 8-byte header, total at most `HEAP_SIZE` (2 GiB), the cursor
satisfies `start ≤ cursor ≤ end` with `end = start + HEAP_SIZE`. -/
theorem cursor_within_region (fuel os : Nat) (cs : List Call) (s1 : State)
    (hos : os ≠ 0) (hend : os + HEAP_SIZE < W64)
    (hdemand : totalDemand cs ≤ HEAP_SIZE)
    (hrun : run fuel os (State.fresh os) cs = .ok s1) :
    s1.start_ptr ≤ s1.free_ptr ∧ s1.free_ptr ≤ s1.end_ptr ∧
      s1.end_ptr = s1.start_ptr + HEAP_SIZE := by
  have h0 : Room (State.fresh os) (totalDemand cs + 0) := by
    show 0 < os ∧ os ≤ os ∧ os + (totalDemand cs + 0) ≤ (os + HEAP_SIZE) % W64 ∧
      (os + HEAP_SIZE) % W64 = os + HEAP_SIZE ∧ (os + HEAP_SIZE) % W64 < W64
    rw [Nat.mod_eq_of_lt hend]
    exact ⟨by omega, le_refl _, by omega, rfl, hend⟩
  obtain ⟨_, h1, h2, h3, _⟩ := Room_run fuel os cs (State.fresh os) s1 0 h0 hrun
  exact ⟨h1, by omega, h3⟩

/-- Witness for the amended C13: `malloc(45)`, `free` of that block,
`malloc(30)` from the freshly initialised state. -/
theorem cursor_within_region_witness :
    totalDemand [Call.malloc 45, Call.free (BASE + 8), Call.malloc 30] ≤ HEAP_SIZE ∧
      ∃ s1, run 0 BASE (State.fresh BASE)
          [Call.malloc 45, Call.free (BASE + 8), Call.malloc 30] = .ok s1 ∧
        s1.start_ptr ≤ s1.free_ptr ∧ s1.free_ptr ≤ s1.end_ptr ∧
        s1.end_ptr = s1.start_ptr + HEAP_SIZE :=
  ⟨by decide, _, rfl,
    cursor_within_region 0 BASE [Call.malloc 45, Call.free (BASE + 8), Call.malloc 30] _
      (by decide) (by decide) (by decide) rfl⟩

/-! ## Symbolic run of `main`

`main` is run for an arbitrary region start `os`. Every intermediate state is
`heapAt os cursor head ws`, where `ws` lists the 8-byte stores made so far
(most recent first): block headers written by `malloc` and links written by
`free` or by the unlink in `malloc`. Each `main_step` lemma is one call of
`main`, in program order; reads are resolved through `rd_hit` / `rd_skip`. -/

theorem rd_nil (a : Nat) : read64 (writes (fun _ => 0) []) a = 0 := by
  simp [read64, writes]

theorem rd_hit (m : Mem) (l : List (Nat × Nat)) (a v : Nat) (h : v < 18446744073709551616) :
    read64 (writes m ((a, v) :: l)) a = v := by
  show read64 (write64 (writes m l) a v) a = v
  rw [read64_write64_same]
  exact Nat.mod_eq_of_lt h

theorem rd_skip (m : Mem) (l : List (Nat × Nat)) (a v b : Nat) (h : b + 8 ≤ a ∨ a + 8 ≤ b) :
    read64 (writes m ((a, v) :: l)) b = read64 (writes m l) b :=
  read64_write64_disj _ a v b h

theorem init_heapAt (os cursor head : Nat) (ws : List (Nat × Nat)) (h : cursor ≠ 0) :
    init os (heapAt os cursor head ws) = .ok (heapAt os cursor head ws) := by
  unfold init
  rw [if_neg (show (heapAt os cursor head ws).free_ptr ≠ 0 from h)]

theorem carve_heapAt (os cursor head : Nat) (ws : List (Nat × Nat)) (size : Nat)
    (h : cursor + 8 + size < 18446744073709551616) :
    carve (heapAt os cursor head ws) size
      = (cursor + 8, heapAt os (cursor + 8 + size) head ((cursor, size) :: ws)) := by
  have e1 : (cursor + HDR) % W64 = cursor + 8 := by simp only [HDR, W64]; omega
  have e2 : (cursor + 8 + size) % W64 = cursor + 8 + size := by simp only [W64]; omega
  simp only [carve, heapAt, e1, e2, writes]

theorem free_heapAt (os cursor head : Nat) (ws : List (Nat × Nat)) (h : Nat)
    (hlt : h + 8 < 18446744073709551616) :
    free (heapAt os cursor head ws) (h + 8) = heapAt os cursor h ((h + 8, head) :: ws) := by
  have e1 : (h + 8 + W64 - HDR) % W64 = h := by simp only [HDR, W64]; omega
  have hne : h + 8 ≠ 0 := by omega
  simp only [free, if_neg hne, heapAt, e1, writes]

theorem unlinked_heapAt_nil (os cursor head : Nat) (ws : List (Nat × Nat)) (n : Nat) :
    unlinked (heapAt os cursor head ws) n []
      = heapAt os cursor (read64 (writes (fun _ => 0) ws) (n + 8)) ws := rfl

theorem unlinked_heapAt_cons (os cursor head : Nat) (ws : List (Nat × Nat)) (n a : Nat)
    (t : List Nat) :
    unlinked (heapAt os cursor head ws) n (a :: t)
      = heapAt os cursor head
          ((lastOf a t + 8, read64 (writes (fun _ => 0) ws) (n + 8)) :: ws) := rfl

theorem main_step1 (fuel os : Nat) (hlt : os + 323 < 18446744073709551616) :
    malloc fuel os State.initial 45
      = .ok (os + 8, heapAt os (os + 53) 0
        [(os, 45)]) := by
  rw [malloc_miss fuel os _ (heapAt os os 0 []) 45 []
    (init_initial os (by simp only [MAP_FAILED, W64]; omega)) rfl rfl
    rfl
    (fun _ h => absurd h (List.not_mem_nil _))
    (Nat.zero_le _), carve_heapAt _ _ _ _ _ (by omega)]

theorem main_step2 (os : Nat) (hlt : os + 323 < 18446744073709551616) :
    free (heapAt os (os + 53) 0
        [(os, 45)]) (os + 8)
      = heapAt os (os + 53) os
        [(os + 8, 0), (os, 45)] :=
  free_heapAt os _ _ _ os (by omega)

theorem main_step3 (fuel os : Nat) (hos : os ≠ 0) (hlt : os + 323 < 18446744073709551616) :
    malloc fuel os (heapAt os (os + 53) os
        [(os + 8, 0), (os, 45)]) 30
      = .ok (os + 8, heapAt os (os + 53) 0
        [(os + 8, 0), (os, 45)]) := by
  have e_ptr : (os + HDR) % W64 = os + 8 := by simp only [HDR, W64]; omega
  rw [malloc_hit fuel os _ _ 30 os [] []
    (init_heapAt _ _ _ _ (by omega)) rfl rfl
    (by simp (disch := omega) [FreeList, heapAt, lastOf, rd_hit, rd_skip, rd_nil,
      Nat.add_assoc, hos])
    (fun _ h => absurd h (List.not_mem_nil _))
    (by simp (disch := omega) [FreeList, heapAt, lastOf, rd_hit, rd_skip, rd_nil,
      Nat.add_assoc, hos])
    (Nat.zero_le _), unlinked_heapAt_nil, e_ptr]
  simp (disch := omega) [FreeList, heapAt, lastOf, rd_hit, rd_skip, rd_nil,
      Nat.add_assoc, hos]

theorem main_step4 (fuel os : Nat) (hlt : os + 323 < 18446744073709551616) :
    malloc fuel os (heapAt os (os + 53) 0
        [(os + 8, 0), (os, 45)]) 10
      = .ok (os + 61, heapAt os (os + 71) 0
        [(os + 53, 10), (os + 8, 0), (os, 45)]) := by
  rw [malloc_miss fuel os _ _ 10 []
    (init_heapAt _ _ _ _ (by omega)) rfl rfl
    rfl
    (fun _ h => absurd h (List.not_mem_nil _))
    (Nat.zero_le _), carve_heapAt _ _ _ _ _ (by omega)]

theorem main_step5 (fuel os : Nat) (hlt : os + 323 < 18446744073709551616) :
    malloc fuel os (heapAt os (os + 71) 0
        [(os + 53, 10), (os + 8, 0), (os, 45)]) 20
      = .ok (os + 79, heapAt os (os + 99) 0
        [(os + 71, 20), (os + 53, 10), (os + 8, 0), (os, 45)]) := by
  rw [malloc_miss fuel os _ _ 20 []
    (init_heapAt _ _ _ _ (by omega)) rfl rfl
    rfl
    (fun _ h => absurd h (List.not_mem_nil _))
    (Nat.zero_le _), carve_heapAt _ _ _ _ _ (by omega)]

theorem main_step6 (fuel os : Nat) (hlt : os + 323 < 18446744073709551616) :
    malloc fuel os (heapAt os (os + 99) 0
        [(os + 71, 20), (os + 53, 10), (os + 8, 0), (os, 45)]) 75
      = .ok (os + 107, heapAt os (os + 182) 0
        [(os + 99, 75), (os + 71, 20), (os + 53, 10), (os + 8, 0), (os, 45)]) := by
  rw [malloc_miss fuel os _ _ 75 []
    (init_heapAt _ _ _ _ (by omega)) rfl rfl
    rfl
    (fun _ h => absurd h (List.not_mem_nil _))
    (Nat.zero_le _), carve_heapAt _ _ _ _ _ (by omega)]

theorem main_step7 (os : Nat) (hlt : os + 323 < 18446744073709551616) :
    free (heapAt os (os + 182) 0
        [(os + 99, 75), (os + 71, 20), (os + 53, 10), (os + 8, 0), (os, 45)]) (os + 79)
      = heapAt os (os + 182) (os + 71)
        [(os + 79, 0), (os + 99, 75), (os + 71, 20), (os + 53, 10), (os + 8, 0),
          (os, 45)] :=
  free_heapAt os _ _ _ (os + 71) (by omega)

theorem main_step8 (fuel os : Nat) (hos : os ≠ 0) (hlt : os + 323 < 18446744073709551616) :
    malloc fuel os (heapAt os (os + 182) (os + 71)
        [(os + 79, 0), (os + 99, 75), (os + 71, 20), (os + 53, 10), (os + 8, 0),
          (os, 45)]) 12
      = .ok (os + 79, heapAt os (os + 182) 0
        [(os + 79, 0), (os + 99, 75), (os + 71, 20), (os + 53, 10), (os + 8, 0),
          (os, 45)]) := by
  have e_ptr : (os + 71 + HDR) % W64 = os + 79 := by simp only [HDR, W64]; omega
  rw [malloc_hit fuel os _ _ 12 (os + 71) [] []
    (init_heapAt _ _ _ _ (by omega)) rfl rfl
    (by simp (disch := omega) [FreeList, heapAt, lastOf, rd_hit, rd_skip, rd_nil,
      Nat.add_assoc, hos])
    (fun _ h => absurd h (List.not_mem_nil _))
    (by simp (disch := omega) [FreeList, heapAt, lastOf, rd_hit, rd_skip, rd_nil,
      Nat.add_assoc, hos])
    (Nat.zero_le _), unlinked_heapAt_nil, e_ptr]
  simp (disch := omega) [FreeList, heapAt, lastOf, rd_hit, rd_skip, rd_nil,
      Nat.add_assoc, hos]

theorem main_step9 (fuel os : Nat) (hlt : os + 323 < 18446744073709551616) :
    malloc fuel os (heapAt os (os + 182) 0
        [(os + 79, 0), (os + 99, 75), (os + 71, 20), (os + 53, 10), (os + 8, 0),
          (os, 45)]) 5
      = .ok (os + 190, heapAt os (os + 195) 0
        [(os + 182, 5), (os + 79, 0), (os + 99, 75), (os + 71, 20), (os + 53, 10),
          (os + 8, 0), (os, 45)]) := by
  rw [malloc_miss fuel os _ _ 5 []
    (init_heapAt _ _ _ _ (by omega)) rfl rfl
    rfl
    (fun _ h => absurd h (List.not_mem_nil _))
    (Nat.zero_le _), carve_heapAt _ _ _ _ _ (by omega)]

theorem main_step10 (os : Nat) (hlt : os + 323 < 18446744073709551616) :
    free (heapAt os (os + 195) 0
        [(os + 182, 5), (os + 79, 0), (os + 99, 75), (os + 71, 20), (os + 53, 10),
          (os + 8, 0), (os, 45)]) (os + 8)
      = heapAt os (os + 195) os
        [(os + 8, 0), (os + 182, 5), (os + 79, 0), (os + 99, 75), (os + 71, 20),
          (os + 53, 10), (os + 8, 0), (os, 45)] :=
  free_heapAt os _ _ _ os (by omega)

theorem main_step11 (os : Nat) (hlt : os + 323 < 18446744073709551616) :
    free (heapAt os (os + 195) os
        [(os + 8, 0), (os + 182, 5), (os + 79, 0), (os + 99, 75), (os + 71, 20),
          (os + 53, 10), (os + 8, 0), (os, 45)]) (os + 61)
      = heapAt os (os + 195) (os + 53)
        [(os + 61, os), (os + 8, 0), (os + 182, 5), (os + 79, 0), (os + 99, 75),
          (os + 71, 20), (os + 53, 10), (os + 8, 0), (os, 45)] :=
  free_heapAt os _ _ _ (os + 53) (by omega)

theorem main_step12 (os : Nat) (hlt : os + 323 < 18446744073709551616) :
    free (heapAt os (os + 195) (os + 53)
        [(os + 61, os), (os + 8, 0), (os + 182, 5), (os + 79, 0), (os + 99, 75),
          (os + 71, 20), (os + 53, 10), (os + 8, 0), (os, 45)]) (os + 107)
      = heapAt os (os + 195) (os + 99)
        [(os + 107, os + 53), (os + 61, os), (os + 8, 0), (os + 182, 5), (os + 79, 0),
          (os + 99, 75), (os + 71, 20), (os + 53, 10), (os + 8, 0), (os, 45)] :=
  free_heapAt os _ _ _ (os + 99) (by omega)

theorem main_step13 (os : Nat) (hlt : os + 323 < 18446744073709551616) :
    free (heapAt os (os + 195) (os + 99)
        [(os + 107, os + 53), (os + 61, os), (os + 8, 0), (os + 182, 5), (os + 79, 0),
          (os + 99, 75), (os + 71, 20), (os + 53, 10), (os + 8, 0), (os, 45)]) (os + 79)
      = heapAt os (os + 195) (os + 71)
        [(os + 79, os + 99), (os + 107, os + 53), (os + 61, os), (os + 8, 0),
          (os + 182, 5), (os + 79, 0), (os + 99, 75), (os + 71, 20), (os + 53, 10),
          (os + 8, 0), (os, 45)] :=
  free_heapAt os _ _ _ (os + 71) (by omega)

theorem main_step14 (os : Nat) (hlt : os + 323 < 18446744073709551616) :
    free (heapAt os (os + 195) (os + 71)
        [(os + 79, os + 99), (os + 107, os + 53), (os + 61, os), (os + 8, 0),
          (os + 182, 5), (os + 79, 0), (os + 99, 75), (os + 71, 20), (os + 53, 10),
          (os + 8, 0), (os, 45)]) (os + 190)
      = heapAt os (os + 195) (os + 182)
        [(os + 190, os + 71), (os + 79, os + 99), (os + 107, os + 53), (os + 61, os),
          (os + 8, 0), (os + 182, 5), (os + 79, 0), (os + 99, 75), (os + 71, 20),
          (os + 53, 10), (os + 8, 0), (os, 45)] :=
  free_heapAt os _ _ _ (os + 182) (by omega)

theorem main_step15 (fuel os : Nat) (hf : 3 ≤ fuel) (hos : os ≠ 0)
    (hlt : os + 323 < 18446744073709551616) :
    malloc fuel os (heapAt os (os + 195) (os + 182)
        [(os + 190, os + 71), (os + 79, os + 99), (os + 107, os + 53), (os + 61, os),
          (os + 8, 0), (os + 182, 5), (os + 79, 0), (os + 99, 75), (os + 71, 20),
          (os + 53, 10), (os + 8, 0), (os, 45)]) 23
      = .ok (os + 107, heapAt os (os + 195) (os + 182)
        [(os + 79, os + 53), (os + 190, os + 71), (os + 79, os + 99),
          (os + 107, os + 53), (os + 61, os), (os + 8, 0), (os + 182, 5), (os + 79, 0),
          (os + 99, 75), (os + 71, 20), (os + 53, 10), (os + 8, 0), (os, 45)]) := by
  have e_ptr : (os + 99 + HDR) % W64 = os + 107 := by simp only [HDR, W64]; omega
  rw [malloc_hit fuel os _ _ 23 (os + 99) [os + 182, os + 71] [os + 53, os]
    (init_heapAt _ _ _ _ (by omega)) rfl rfl
    (by simp (disch := omega) [FreeList, heapAt, lastOf, rd_hit, rd_skip, rd_nil,
      Nat.add_assoc, hos])
    (by simp (disch := omega) [FreeList, heapAt, lastOf, rd_hit, rd_skip, rd_nil,
      Nat.add_assoc, hos])
    (by simp (disch := omega) [FreeList, heapAt, lastOf, rd_hit, rd_skip, rd_nil,
      Nat.add_assoc, hos])
    (by show 2 ≤ fuel; omega), unlinked_heapAt_cons, e_ptr]
  simp (disch := omega) [FreeList, heapAt, lastOf, rd_hit, rd_skip, rd_nil,
      Nat.add_assoc, hos]

theorem main_step16 (fuel os : Nat) (hos : os ≠ 0) (hlt : os + 323 < 18446744073709551616) :
    malloc fuel os (heapAt os (os + 195) (os + 182)
        [(os + 79, os + 53), (os + 190, os + 71), (os + 79, os + 99),
          (os + 107, os + 53), (os + 61, os), (os + 8, 0), (os + 182, 5), (os + 79, 0),
          (os + 99, 75), (os + 71, 20), (os + 53, 10), (os + 8, 0), (os, 45)]) 4
      = .ok (os + 190, heapAt os (os + 195) (os + 71)
        [(os + 79, os + 53), (os + 190, os + 71), (os + 79, os + 99),
          (os + 107, os + 53), (os + 61, os), (os + 8, 0), (os + 182, 5), (os + 79, 0),
          (os + 99, 75), (os + 71, 20), (os + 53, 10), (os + 8, 0), (os, 45)]) := by
  have e_ptr : (os + 182 + HDR) % W64 = os + 190 := by simp only [HDR, W64]; omega
  rw [malloc_hit fuel os _ _ 4 (os + 182) [] [os + 71, os + 53, os]
    (init_heapAt _ _ _ _ (by omega)) rfl rfl
    (by simp (disch := omega) [FreeList, heapAt, lastOf, rd_hit, rd_skip, rd_nil,
      Nat.add_assoc, hos])
    (fun _ h => absurd h (List.not_mem_nil _))
    (by simp (disch := omega) [FreeList, heapAt, lastOf, rd_hit, rd_skip, rd_nil,
      Nat.add_assoc, hos])
    (Nat.zero_le _), unlinked_heapAt_nil, e_ptr]
  simp (disch := omega) [FreeList, heapAt, lastOf, rd_hit, rd_skip, rd_nil,
      Nat.add_assoc, hos]

theorem main_step17 (fuel os : Nat) (hf : 3 ≤ fuel) (hos : os ≠ 0)
    (hlt : os + 323 < 18446744073709551616) :
    malloc fuel os (heapAt os (os + 195) (os + 71)
        [(os + 79, os + 53), (os + 190, os + 71), (os + 79, os + 99),
          (os + 107, os + 53), (os + 61, os), (os + 8, 0), (os + 182, 5), (os + 79, 0),
          (os + 99, 75), (os + 71, 20), (os + 53, 10), (os + 8, 0), (os, 45)]) 120
      = .ok (os + 203, heapAt os (os + 323) (os + 71)
        [(os + 195, 120), (os + 79, os + 53), (os + 190, os + 71), (os + 79, os + 99),
          (os + 107, os + 53), (os + 61, os), (os + 8, 0), (os + 182, 5), (os + 79, 0),
          (os + 99, 75), (os + 71, 20), (os + 53, 10), (os + 8, 0), (os, 45)]) := by
  rw [malloc_miss fuel os _ _ 120 [os + 71, os + 53, os]
    (init_heapAt _ _ _ _ (by omega)) rfl rfl
    (by simp (disch := omega) [FreeList, heapAt, lastOf, rd_hit, rd_skip, rd_nil,
      Nat.add_assoc, hos])
    (by simp (disch := omega) [FreeList, heapAt, lastOf, rd_hit, rd_skip, rd_nil,
      Nat.add_assoc, hos])
    (by show 3 ≤ fuel; omega), carve_heapAt _ _ _ _ _ (by omega)]

theorem main_step18 (fuel os : Nat) (hos : os ≠ 0) (hlt : os + 323 < 18446744073709551616) :
    malloc fuel os (heapAt os (os + 323) (os + 71)
        [(os + 195, 120), (os + 79, os + 53), (os + 190, os + 71), (os + 79, os + 99),
          (os + 107, os + 53), (os + 61, os), (os + 8, 0), (os + 182, 5), (os + 79, 0),
          (os + 99, 75), (os + 71, 20), (os + 53, 10), (os + 8, 0), (os, 45)]) 2
      = .ok (os + 79, heapAt os (os + 323) (os + 53)
        [(os + 195, 120), (os + 79, os + 53), (os + 190, os + 71), (os + 79, os + 99),
          (os + 107, os + 53), (os + 61, os), (os + 8, 0), (os + 182, 5), (os + 79, 0),
          (os + 99, 75), (os + 71, 20), (os + 53, 10), (os + 8, 0), (os, 45)]) := by
  have e_ptr : (os + 71 + HDR) % W64 = os + 79 := by simp only [HDR, W64]; omega
  rw [malloc_hit fuel os _ _ 2 (os + 71) [] [os + 53, os]
    (init_heapAt _ _ _ _ (by omega)) rfl rfl
    (by simp (disch := omega) [FreeList, heapAt, lastOf, rd_hit, rd_skip, rd_nil,
      Nat.add_assoc, hos])
    (fun _ h => absurd h (List.not_mem_nil _))
    (by simp (disch := omega) [FreeList, heapAt, lastOf, rd_hit, rd_skip, rd_nil,
      Nat.add_assoc, hos])
    (Nat.zero_le _), unlinked_heapAt_nil, e_ptr]
  simp (disch := omega) [FreeList, heapAt, lastOf, rd_hit, rd_skip, rd_nil,
      Nat.add_assoc, hos]

theorem bind_ok {α β : Type} (a : α) (f : α → Except Err β) :
    (Except.ok a >>= f) = f a := rfl

/-- The values `main` computes, for every address `os` returned by `mmap`. -/
theorem main_eq (fuel os : Nat) (hf : 3 ≤ fuel) (hos : os ≠ 0)
    (hlt : os + 323 < 18446744073709551616) :
    main fuel os = .ok
      { first_block := os + 8, new_first_block := os + 8, second_block := os + 61,
        third_block := os + 79, fourth_block := os + 107, new_block := os + 79,
        newnew_block := os + 190, extra_new_block := os + 107,
        really_new_block := os + 190, big_new_block := os + 203,
        the_newest_block := os + 79, cursor_before_extra := os + 195,
        cursor_after_extra := os + 195, cursor_after_really := os + 195 } := by
  unfold main
  rw [main_step1 fuel os hlt, bind_ok]
  dsimp only
  rw [main_step2 os hlt, main_step3 fuel os hos hlt, bind_ok]
  dsimp only
  rw [main_step4 fuel os hlt, bind_ok]
  dsimp only
  rw [main_step5 fuel os hlt, bind_ok]
  dsimp only
  rw [main_step6 fuel os hlt, bind_ok]
  dsimp only
  rw [main_step7 os hlt, main_step8 fuel os hos hlt, bind_ok]
  dsimp only
  rw [main_step9 fuel os hlt, bind_ok]
  dsimp only
  rw [main_step10 os hlt, main_step11 os hlt, main_step12 os hlt, main_step13 os hlt,
    main_step14 os hlt, main_step15 fuel os hf hos hlt, bind_ok]
  dsimp only
  rw [main_step16 fuel os hos hlt, bind_ok]
  dsimp only
  rw [main_step17 fuel os hf hos hlt, bind_ok]
  dsimp only
  rw [main_step18 fuel os hos hlt, bind_ok]
  rfl

/-- C19 (end-to-end scenario of `main`): from the state at program start, for
every non-null address `os` returned by `mmap` (with the 323 bytes used lying
inside the address space) and fuel of at least 3, `main` runs to completion
with these values. The five blocks carved from the frontier are
`first_block = os + 8`, `second_block = os + 61`, `third_block = os + 79`,
`fourth_block = os + 107` and `newnew_block = os + 190`, each 8 bytes past its
header. `malloc(30)` after `free(first_block)` returns `first_block`;
`malloc(12)` after `free(third_block)` returns `third_block`; after the five
releases `malloc(23)` returns `fourth_block` (the released 75-byte block) and
`malloc(4)` returns `newnew_block` (the released 5-byte block), and the
frontier cursor, `os + 195` before them, is the same after each of the two. -/
theorem main_scenario (fuel os : Nat) (hf : 3 ≤ fuel) (hos : os ≠ 0)
    (hlt : os + 323 < W64) :
    ∃ v, main fuel os = .ok v ∧
      v.first_block = os + 8 ∧
      v.second_block = os + 61 ∧
      v.third_block = os + 79 ∧
      v.fourth_block = os + 107 ∧
      v.newnew_block = os + 190 ∧
      v.new_first_block = v.first_block ∧
      v.new_block = v.third_block ∧
      v.extra_new_block = v.fourth_block ∧
      v.really_new_block = v.newnew_block ∧
      v.cursor_before_extra = os + 195 ∧
      v.cursor_after_extra = v.cursor_before_extra ∧
      v.cursor_after_really = v.cursor_before_extra :=
  ⟨_, main_eq fuel os hf hos hlt, rfl, rfl, rfl, rfl, rfl, rfl, rfl, rfl, rfl, rfl, rfl, rfl⟩

/-- Witness for C19: `mmap` returns `BASE`, fuel 3. -/
theorem main_scenario_witness :
    ∃ v, main 3 BASE = .ok v ∧
      v.first_block = BASE + 8 ∧
      v.second_block = BASE + 61 ∧
      v.third_block = BASE + 79 ∧
      v.fourth_block = BASE + 107 ∧
      v.newnew_block = BASE + 190 ∧
      v.new_first_block = v.first_block ∧
      v.new_block = v.third_block ∧
      v.extra_new_block = v.fourth_block ∧
      v.really_new_block = v.newnew_block ∧
      v.cursor_before_extra = BASE + 195 ∧
      v.cursor_after_extra = v.cursor_before_extra ∧
      v.cursor_after_really = v.cursor_before_extra :=
  main_scenario 3 BASE (by decide) (by decide) (by decide)

end PbAlloc
